import Mathlib

/-!
Verification of the SuperGX chunked file-transfer engine.

The development shallowly embeds the three transfer engines of the repository:

* `Supr` — the sequenced/unordered WebRTC path of `src/public/supr.js`
  (`Supr.push` framing with a 4-byte big-endian sequence index,
  `Supr.pull` sparse reassembly, `Supr.save` finalisation, and the
  high-water-mark `pump` loop);
* `SuperGO` — the socket-relay engine of `src/unnamed/part_003`
  (`sendFile`, the `incoming-file` / `devices` socket handlers,
  `_sendFileChunks`, `_receiveChunk` with 50 MiB consolidation and
  `_finalizeFile` with duplicate-completion protection);
* `P4` — the P2P variant of `src/unnamed/part_004`
  (`_sendFile` including its empty-file branch, the buffered-amount
  backpressure wait, `_receiveChunk` and `_finalizeFile`).

Bytes are modelled as `Nat` (the code never inspects byte values), byte
buffers as `List Nat`.  Wall-clock-dependent behaviour (progress-event
throttling, the 5-second expiry of the duplicate-completion keys, the
1-second watchdog interval) is outside the model; events whose emission
depends only on program state are modelled exactly.
-/

/-- Fuel-bounded worker for `chunksOf`; the fuel makes the recursion
structural so that chunking computes by kernel reduction. -/
def chunksOfAux (c : Nat) : Nat → List Nat → List (List Nat)
  | 0, _ => []
  | _ + 1, [] => []
  | fuel + 1, a :: rest => (a :: rest).take c :: chunksOfAux c fuel ((a :: rest).drop c)

/-- Splits a byte buffer into consecutive chunks of `c` bytes (the last chunk
may be shorter), mirroring the `file.slice(offset, offset + CHUNK_SIZE)`
loops of all three engines. -/
def chunksOf (c : Nat) (l : List Nat) : List (List Nat) :=
  chunksOfAux c l.length l

/-- Ceiling division, the Lean counterpart of `Math.ceil(fileSize / CHUNK_SIZE)`. -/
def ceilDiv (a b : Nat) : Nat := (a + b - 1) / b

theorem chunksOf_nil (c : Nat) : chunksOf c [] = [] := rfl

theorem chunksOfAux_congr (c : Nat) (hc : c ≠ 0) :
    ∀ fuel fuel' (l : List Nat), l.length ≤ fuel → l.length ≤ fuel' →
      chunksOfAux c fuel l = chunksOfAux c fuel' l := by
  intro fuel
  induction fuel with
  | zero =>
    intro fuel' l h h'
    have hl : l = [] := by
      cases l with
      | nil => rfl
      | cons a t => simp at h
    subst hl
    cases fuel' <;> rfl
  | succ n ih =>
    intro fuel' l h h'
    cases l with
    | nil => cases fuel' <;> rfl
    | cons a rest =>
      cases fuel' with
      | zero => simp at h'
      | succ n' =>
        simp only [chunksOfAux]
        congr 1
        apply ih
        · have := List.length_drop c (a :: rest)
          simp only [List.length_cons] at h ⊢
          simp only [this, List.length_cons]
          have hc1 : 0 < c := Nat.pos_of_ne_zero hc
          omega
        · have := List.length_drop c (a :: rest)
          simp only [List.length_cons] at h' ⊢
          simp only [this, List.length_cons]
          have hc1 : 0 < c := Nat.pos_of_ne_zero hc
          omega

theorem chunksOf_cons_of (c : Nat) (l : List Nat) (hl : l ≠ []) (hc : c ≠ 0) :
    chunksOf c l = l.take c :: chunksOf c (l.drop c) := by
  cases l with
  | nil => exact absurd rfl hl
  | cons a rest =>
    show chunksOfAux c (rest.length + 1) (a :: rest) = _
    simp only [chunksOfAux]
    congr 1
    apply chunksOfAux_congr c hc
    · have := List.length_drop c (a :: rest)
      simp only [this, List.length_cons]
      have hc1 : 0 < c := Nat.pos_of_ne_zero hc
      omega
    · exact le_rfl

/-- Reassembling the chunk list gives back the original buffer. -/
theorem flatten_chunksOf (c : Nat) (hc : c ≠ 0) (l : List Nat) :
    (chunksOf c l).flatten = l := by
  have key : ∀ n (l : List Nat), l.length ≤ n → (chunksOf c l).flatten = l := by
    intro n
    induction n with
    | zero =>
      intro l h
      have hl : l = [] := by
        cases l with
        | nil => rfl
        | cons a t => simp at h
      subst hl; simp [chunksOf_nil]
    | succ n ih =>
      intro l h
      by_cases hl : l = []
      · subst hl; simp [chunksOf_nil]
      · rw [chunksOf_cons_of c l hl hc]
        have hlen : (l.drop c).length ≤ n := by
          have h1 : 0 < l.length := List.length_pos.mpr hl
          have hc1 : 0 < c := Nat.pos_of_ne_zero hc
          simp only [List.length_drop]
          omega
        rw [List.flatten_cons, ih (l.drop c) hlen, List.take_append_drop]
  exact key l.length l le_rfl

/-- The number of chunks is the ceiling of the length divided by the chunk
size, matching the receiver-side `Math.ceil(fileSize / CHUNK_SIZE)`. -/
theorem length_chunksOf (c : Nat) (hc : c ≠ 0) (l : List Nat) :
    (chunksOf c l).length = ceilDiv l.length c := by
  have key : ∀ n (l : List Nat), l.length ≤ n →
      (chunksOf c l).length = ceilDiv l.length c := by
    intro n
    induction n with
    | zero =>
      intro l h
      have hl : l = [] := by
        cases l with
        | nil => rfl
        | cons a t => simp at h
      subst hl
      simp only [chunksOf_nil, List.length_nil, ceilDiv]
      exact (Nat.div_eq_of_lt (by omega)).symm
    | succ n ih =>
      intro l h
      by_cases hl : l = []
      · subst hl
        simp only [chunksOf_nil, List.length_nil, ceilDiv]
        exact (Nat.div_eq_of_lt (by omega)).symm
      · rw [chunksOf_cons_of c l hl hc]
        have h1 : 0 < l.length := List.length_pos.mpr hl
        have hc1 : 0 < c := Nat.pos_of_ne_zero hc
        have hlen : (l.drop c).length ≤ n := by
          simp only [List.length_drop]; omega
        rw [List.length_cons, ih (l.drop c) hlen]
        simp only [List.length_drop, ceilDiv]
        rcases Nat.lt_or_ge l.length c with hlt | hge
        · have e1 : l.length - c = 0 := by omega
          rw [e1]
          have e2 : (0 + c - 1) / c = 0 := by
            apply Nat.div_eq_of_lt; omega
          rw [e2]
          have e3 : (l.length + c - 1) / c = 1 := by
            apply Nat.div_eq_of_lt_le <;> omega
          omega
        · have e1 : l.length - c + c - 1 = l.length - 1 := by omega
          have e2 : l.length + c - 1 = (l.length - 1) + c := by omega
          rw [e1, e2, Nat.add_div_right _ hc1]
  exact key l.length l le_rfl

/-! ### 4-byte big-endian sequence index

`Supr.push` writes the chunk index with `view.setUint32(0, chunkIndex, false)`
(big endian, value truncated modulo 2^32) and `Supr.pull` reads it back with
`view.getUint32(0, false)`. -/

/-- The four big-endian bytes of `n % 2^32`, as written by `setUint32`. -/
def toBE4 (n : Nat) : List Nat :=
  [n / 2 ^ 24 % 256, n / 2 ^ 16 % 256, n / 2 ^ 8 % 256, n % 256]

/-- Reads a 4-byte big-endian integer from the first four bytes of a buffer,
as `getUint32(0, false)` does.  Frames shorter than four bytes would make the
JavaScript `DataView` read throw; they never occur in the protocol and decode
to 0 here. -/
def fromBE4 : List Nat → Nat
  | b0 :: b1 :: b2 :: b3 :: _ => b0 * 2 ^ 24 + b1 * 2 ^ 16 + b2 * 2 ^ 8 + b3
  | _ => 0

theorem toBE4_length (n : Nat) : (toBE4 n).length = 4 := rfl

theorem fromBE4_toBE4 (n : Nat) (rest : List Nat) (h : n < 2 ^ 32) :
    fromBE4 (toBE4 n ++ rest) = n := by
  simp only [toBE4, fromBE4, List.cons_append, List.nil_append]
  omega

theorem drop4_toBE4 (n : Nat) (rest : List Nat) :
    (toBE4 n ++ rest).drop 4 = rest := by
  simp [toBE4]

/-! ### The `Supr` engine (`src/public/supr.js`)

Sequenced transfer over an unordered `RTCDataChannel`: the sender prepends a
4-byte big-endian chunk index to every 128 KiB chunk and finishes with the
string message `'DONE'`; the receiver stores chunks sparsely by index,
counting each index only on its first arrival, and finalises either when
every chunk has arrived or when `'DONE'` is delivered. -/

namespace Supr

/-- `CONFIG.CHUNK_SIZE` (128 KiB). -/
def CHUNK_SIZE : Nat := 128 * 1024

/-- `CONFIG.BUFFER_HI_WATER` (1 MiB). -/
def BUFFER_HI_WATER : Nat := 1024 * 1024

/-- A data-channel message: either the string `'DONE'` or a binary packet. -/
inductive Msg where
  | done : Msg
  | data (bytes : List Nat) : Msg
deriving DecidableEq

/-- An event emitted to the UI layer.  Timing-throttled `progress` events are
outside the model; `complete` carries the assembled payload (the `Blob`). -/
inductive Ev where
  | complete (targetId : String) (fileName : String) (payload : List Nat) : Ev
deriving DecidableEq

/-- The `activeDownload` record created by `Supr.acceptFile`.  `chunks` is the
sparse chunk array: `none` is a hole (JavaScript `undefined`), `some b` a
stored `ArrayBuffer`.  The timing field `lastUpdate` is not modelled. -/
structure Download where
  id : String
  chunks : List (Option (List Nat))
  receivedCount : Nat
  totalChunks : Nat
  bytesRx : Nat
deriving DecidableEq

/-- The receiver-relevant part of a `Supr` instance: `activeDownload` and the
file name from the `incoming` metadata. -/
structure Client where
  activeDownload : Option Download
  incomingFileName : Option String
deriving DecidableEq

/-- `Supr.acceptFile`: pre-allocates `new Array(totalChunks)` (all holes) with
`totalChunks = Math.ceil(fileSize / CHUNK_SIZE)`. -/
def acceptFile (hostId : String) (fileName : String) (fileSize : Nat) : Client :=
  { activeDownload := some
      { id := hostId
        chunks := List.replicate (ceilDiv fileSize CHUNK_SIZE) none
        receivedCount := 0
        totalChunks := ceilDiv fileSize CHUNK_SIZE
        bytesRx := 0 }
    incomingFileName := some fileName }

/-- Writing `t.chunks[index] = payload`: in-bounds writes update the slot,
out-of-bounds writes grow the JavaScript array, padding with holes. -/
def arrWrite (l : List (Option (List Nat))) (i : Nat) (v : List Nat) :
    List (Option (List Nat)) :=
  if i < l.length then l.set i (some v)
  else l ++ List.replicate (i - l.length) none ++ [some v]

/-- `new Blob(t.chunks)` over the sparse array: the stored chunks concatenated
in index order.  (A real browser stringifies holes of a sparse array to the
text `"undefined"`; holes only exist when chunks were lost, and the claims
about lossy completion are stated against the stored chunks.) -/
def assemble (chunks : List (Option (List Nat))) : List Nat :=
  (chunks.filterMap id).flatten

/-- `Supr.save`: assembles and emits `complete`, then clears `activeDownload`;
a call with no active download is a no-op. -/
def save (s : Client) (id : String) : Client × List Ev :=
  match s.activeDownload with
  | none => (s, [])
  | some t =>
    ({ s with activeDownload := none },
     [Ev.complete id (s.incomingFileName.getD "download") (assemble t.chunks)])

/-- `Supr.pull`: `'DONE'` forwards to `save`; a binary packet is parsed as
4-byte big-endian index plus payload, stored only if the slot is still a hole
(`if (!t.chunks[index])`), and the download auto-finalises when
`receivedCount` reaches `totalChunks`. -/
def pull (s : Client) (id : String) (m : Msg) : Client × List Ev :=
  match m with
  | Msg.done => save s id
  | Msg.data bytes =>
    match s.activeDownload with
    | none => (s, [])
    | some t =>
      if t.id = id then
        let index := fromBE4 bytes
        let payload := bytes.drop 4
        let t' := if (t.chunks.getD index none).isNone then
            { t with chunks := arrWrite t.chunks index payload
                     receivedCount := t.receivedCount + 1
                     bytesRx := t.bytesRx + payload.length }
          else t
        if t'.receivedCount = t'.totalChunks then
          save { s with activeDownload := some t' } id
        else ({ s with activeDownload := some t' }, [])
      else (s, [])

/-- Processes a list of incoming messages through `pull`, accumulating the
emitted events in delivery order. -/
def run (s : Client) (id : String) : List Msg → Client × List Ev
  | [] => (s, [])
  | m :: ms =>
    let r := pull s id m
    let rest := run r.1 id ms
    (rest.1, r.2 ++ rest.2)

/-- The data frames produced by the `Supr.push` pump: each chunk prefixed
with its 4-byte big-endian index, indices counting up from `i`. -/
def frames (i : Nat) : List (List Nat) → List Msg
  | [] => []
  | ch :: rest => Msg.data (toBE4 i ++ ch) :: frames (i + 1) rest

/-- Everything `Supr.push` sends for a hosted file: the indexed data frames
followed by the `'DONE'` string. -/
def pushMsgs (file : List Nat) : List Msg :=
  frames 0 (chunksOf CHUNK_SIZE file) ++ [Msg.done]

end Supr

namespace Supr

/-- Number of chunks stored in the sparse array (matches `receivedCount`). -/
def countStored (chunks : List (Option (List Nat))) : Nat :=
  chunks.countP (fun o => o.isSome)

/-- Total bytes stored in the sparse array (matches `bytesRx`). -/
def storedBytes (chunks : List (Option (List Nat))) : Nat :=
  (chunks.map (fun o => (o.getD []).length)).sum

theorem pull_of_none (s : Client) (id : String) (m : Msg)
    (h : s.activeDownload = none) : pull s id m = (s, []) := by
  cases m with
  | done => simp [pull, save, h]
  | data bytes => simp [pull, h]

theorem run_of_none (s : Client) (id : String) (ms : List Msg)
    (h : s.activeDownload = none) : run s id ms = (s, []) := by
  induction ms with
  | nil => rfl
  | cons m rest ih =>
    simp [run, pull_of_none s id m h, ih]

theorem run_append (s : Client) (id : String) (ms₁ ms₂ : List Msg) :
    run s id (ms₁ ++ ms₂) =
      ((run (run s id ms₁).1 id ms₂).1,
        (run s id ms₁).2 ++ (run (run s id ms₁).1 id ms₂).2) := by
  induction ms₁ generalizing s with
  | nil => simp [run]
  | cons m rest ih =>
    simp only [List.cons_append, run, List.append_eq]
    rw [ih ((pull s id m).1)]
    simp [List.append_assoc]

theorem countStored_nil : countStored [] = 0 := rfl

theorem countStored_cons (o : Option (List Nat)) (l : List (Option (List Nat))) :
    countStored (o :: l) = (if o.isSome then 1 else 0) + countStored l := by
  cases o <;> simp [countStored, List.countP_cons, Nat.add_comm]

theorem storedBytes_cons (o : Option (List Nat)) (l : List (Option (List Nat))) :
    storedBytes (o :: l) = (o.getD []).length + storedBytes l := by
  simp [storedBytes]

theorem getD_replicate_none (k j : Nat) :
    (List.replicate k (none : Option (List Nat))).getD j none = none := by
  induction k generalizing j with
  | zero => rfl
  | succ n ih =>
    cases j with
    | zero => rfl
    | succ j' => simpa [List.replicate] using ih j'

theorem countStored_replicate (k : Nat) :
    countStored (List.replicate k (none : Option (List Nat))) = 0 := by
  induction k with
  | zero => rfl
  | succ n ih => simpa [List.replicate, countStored_cons] using ih

theorem storedBytes_replicate (k : Nat) :
    storedBytes (List.replicate k (none : Option (List Nat))) = 0 := by
  induction k with
  | zero => rfl
  | succ n ih => simpa [List.replicate, storedBytes_cons] using ih

theorem length_arrWrite (l : List (Option (List Nat))) (i : Nat) (v : List Nat)
    (h : i < l.length) : (arrWrite l i v).length = l.length := by
  simp [arrWrite, h]

theorem getD_set_self (l : List (Option (List Nat))) (i : Nat) (v : List Nat)
    (h : i < l.length) : (l.set i (some v)).getD i none = some v := by
  induction l generalizing i with
  | nil => simp at h
  | cons x xs ih =>
    cases i with
    | zero => rfl
    | succ i' =>
      simp only [List.length_cons, Nat.succ_lt_succ_iff] at h
      simpa [List.set] using ih i' h

theorem getD_set_ne (l : List (Option (List Nat))) (i j : Nat) (v : List Nat)
    (h : j ≠ i) : (l.set i (some v)).getD j none = l.getD j none := by
  induction l generalizing i j with
  | nil => simp [List.set]
  | cons x xs ih =>
    cases i with
    | zero =>
      cases j with
      | zero => exact absurd rfl h
      | succ j' => rfl
    | succ i' =>
      cases j with
      | zero => rfl
      | succ j' =>
        simpa [List.set] using ih i' j' (fun hh => h (by rw [hh]))

theorem getD_append_left (l₁ l₂ : List (Option (List Nat))) (j : Nat)
    (h : j < l₁.length) : (l₁ ++ l₂).getD j none = l₁.getD j none := by
  induction l₁ generalizing j with
  | nil => simp at h
  | cons x xs ih =>
    cases j with
    | zero => rfl
    | succ j' =>
      simp only [List.length_cons, Nat.succ_lt_succ_iff] at h
      simpa using ih j' h

theorem getD_append_at_length (L : List (Option (List Nat))) (x : Option (List Nat)) :
    (L ++ [x]).getD L.length none = x := by
  induction L with
  | nil => rfl
  | cons y ys ih => simpa using ih

theorem getD_arrWrite_self (l : List (Option (List Nat))) (i : Nat) (v : List Nat) :
    (arrWrite l i v).getD i none = some v := by
  by_cases h : i < l.length
  · simp only [arrWrite, if_pos h]
    exact getD_set_self l i v h
  · simp only [arrWrite, if_neg h]
    have hlen : (l ++ List.replicate (i - l.length) none).length = i := by
      simp; omega
    calc (l ++ List.replicate (i - l.length) none ++ [some v]).getD i none
        = ((l ++ List.replicate (i - l.length) none) ++ [some v]).getD
            (l ++ List.replicate (i - l.length) none).length none := by
          rw [hlen, List.append_assoc]
      _ = some v := getD_append_at_length _ _

theorem getD_arrWrite_ne (l : List (Option (List Nat))) (i j : Nat) (v : List Nat)
    (hne : j ≠ i) (hj : j < l.length) :
    (arrWrite l i v).getD j none = l.getD j none := by
  by_cases h : i < l.length
  · simp only [arrWrite, if_pos h]
    exact getD_set_ne l i j v hne
  · simp only [arrWrite, if_neg h]
    rw [List.append_assoc]
    exact getD_append_left l _ j hj

theorem countStored_set (l : List (Option (List Nat))) (i : Nat) (v : List Nat)
    (h : i < l.length) (hnone : l.getD i none = none) :
    countStored (l.set i (some v)) = countStored l + 1 := by
  induction l generalizing i with
  | nil => simp at h
  | cons x xs ih =>
    cases i with
    | zero =>
      have hx : x = none := hnone
      subst hx
      simp [List.set, countStored_cons]
      omega
    | succ i' =>
      simp only [List.length_cons, Nat.succ_lt_succ_iff] at h
      have := ih i' h hnone
      simp [List.set, countStored_cons, this]
      omega

theorem storedBytes_set (l : List (Option (List Nat))) (i : Nat) (v : List Nat)
    (h : i < l.length) (hnone : l.getD i none = none) :
    storedBytes (l.set i (some v)) = storedBytes l + v.length := by
  induction l generalizing i with
  | nil => simp at h
  | cons x xs ih =>
    cases i with
    | zero =>
      have hx : x = none := hnone
      subst hx
      simp [List.set, storedBytes_cons]
      omega
    | succ i' =>
      simp only [List.length_cons, Nat.succ_lt_succ_iff] at h
      have := ih i' h hnone
      simp [List.set, storedBytes_cons, this]
      omega

theorem countStored_append (l₁ l₂ : List (Option (List Nat))) :
    countStored (l₁ ++ l₂) = countStored l₁ + countStored l₂ :=
  List.countP_append _ _ _

theorem storedBytes_append (l₁ l₂ : List (Option (List Nat))) :
    storedBytes (l₁ ++ l₂) = storedBytes l₁ + storedBytes l₂ := by
  simp [storedBytes]

theorem countStored_arrWrite (l : List (Option (List Nat))) (i : Nat) (v : List Nat)
    (hnone : l.getD i none = none) :
    countStored (arrWrite l i v) = countStored l + 1 := by
  by_cases h : i < l.length
  · simp only [arrWrite, if_pos h]
    exact countStored_set l i v h hnone
  · simp only [arrWrite, if_neg h]
    rw [countStored_append, countStored_append, countStored_replicate]
    simp [countStored_cons, countStored_nil]

theorem storedBytes_arrWrite (l : List (Option (List Nat))) (i : Nat) (v : List Nat)
    (hnone : l.getD i none = none) :
    storedBytes (arrWrite l i v) = storedBytes l + v.length := by
  by_cases h : i < l.length
  · simp only [arrWrite, if_pos h]
    exact storedBytes_set l i v h hnone
  · simp only [arrWrite, if_neg h]
    rw [storedBytes_append, storedBytes_append, storedBytes_replicate]
    simp [storedBytes_cons, storedBytes]

theorem lt_length_of_getD_ne (l : List (Option (List Nat))) (j : Nat)
    (h : l.getD j none ≠ none) : j < l.length := by
  by_contra hc
  push_neg at hc
  exact h (List.getD_eq_default _ _ hc)

/-- Description of the data frames sent by the pump: frame `j` carries the
big-endian encoding of index `i + j` followed by the bytes of chunk `j`. -/
theorem mem_frames (chs : List (List Nat)) : ∀ (i : Nat) (m : Msg),
    m ∈ frames i chs ↔
      ∃ j, j < chs.length ∧ m = Msg.data (toBE4 (i + j) ++ chs.getD j []) := by
  induction chs with
  | nil =>
    intro i m
    simp [frames]
  | cons ch rest ih =>
    intro i m
    simp only [frames, List.mem_cons, ih (i + 1)]
    constructor
    · rintro (rfl | ⟨j, hj, rfl⟩)
      · exact ⟨0, by simp, by simp⟩
      · refine ⟨j + 1, by simpa using Nat.succ_lt_succ hj, ?_⟩
        have : i + 1 + j = i + (j + 1) := by omega
        simp [this]
    · rintro ⟨j, hj, rfl⟩
      cases j with
      | zero => left; simp
      | succ j' =>
        right
        refine ⟨j', by simpa using Nat.lt_of_succ_lt_succ hj, ?_⟩
        have : i + 1 + j' = i + (j' + 1) := by omega
        simp [this]

/-- From positionwise stored values to the fully-populated array. -/
theorem eq_map_some_of_getD (chs : List (List Nat)) :
    ∀ (L : List (Option (List Nat))), L.length = chs.length →
      (∀ j, j < chs.length → L.getD j none = some (chs.getD j [])) →
      L = chs.map some := by
  induction chs with
  | nil =>
    intro L h _
    cases L with
    | nil => rfl
    | cons x xs => simp at h
  | cons y ys ih =>
    intro L h hv
    cases L with
    | nil => simp at h
    | cons x xs =>
      have h0 : x = some y := hv 0 (by simp)
      subst h0
      simp only [List.map_cons, List.cons.injEq, true_and]
      refine ih xs (by simpa using h) ?_
      intro j hj
      have := hv (j + 1) (by simpa using Nat.succ_lt_succ hj)
      simpa using this

theorem assemble_map_some (chs : List (List Nat)) :
    assemble (chs.map some) = chs.flatten := by
  simp [assemble, List.filterMap_map]

/-- The receiver-side invariant tying an `activeDownload` record to the
chunk list of the hosted file. -/
def SeqInv (chs : List (List Nat)) (t : Download) : Prop :=
  t.totalChunks = chs.length ∧
  t.chunks.length = chs.length ∧
  (∀ j, j < chs.length →
    t.chunks.getD j none = none ∨ t.chunks.getD j none = some (chs.getD j [])) ∧
  t.receivedCount = countStored t.chunks ∧
  t.bytesRx = storedBytes t.chunks

theorem assemble_of_full (chs : List (List Nat)) (t : Download)
    (hinv : SeqInv chs t)
    (hall : ∀ j, j < chs.length → (t.chunks.getD j none).isSome) :
    assemble t.chunks = chs.flatten := by
  obtain ⟨_, hlen, hval, _, _⟩ := hinv
  have : t.chunks = chs.map some := by
    refine eq_map_some_of_getD chs t.chunks hlen ?_
    intro j hj
    rcases hval j hj with h | h
    · have := hall j hj
      rw [h] at this
      simp at this
    · exact h
  rw [this, assemble_map_some]

theorem countStored_le_length (l : List (Option (List Nat))) :
    countStored l ≤ l.length := List.countP_le_length _

/-- If every slot counted, every slot is populated. -/
theorem all_stored_of_count_full (chs : List (List Nat)) (t : Download)
    (hinv : SeqInv chs t) (hfull : t.receivedCount = t.totalChunks) :
    ∀ j, j < chs.length → (t.chunks.getD j none).isSome := by
  obtain ⟨htot, hlen, hval, hcount, _⟩ := hinv
  have hc : countStored t.chunks = t.chunks.length := by
    rw [← hcount, hfull, htot, hlen]
  have hall := List.countP_eq_length.mp hc
  intro j hj
  have hjlen : j < t.chunks.length := by rw [hlen]; exact hj
  have hmem : t.chunks.getD j none ∈ t.chunks := by
    rw [List.getD_eq_getElem t.chunks none hjlen]
    exact List.getElem_mem hjlen
  exact hall _ hmem

theorem frame_index_inj (j j0 : Nat) (chs : List (List Nat))
    (hj : j < 2 ^ 32) (hj0 : j0 < 2 ^ 32)
    (h : toBE4 j ++ chs.getD j [] = toBE4 j0 ++ chs.getD j0 []) : j = j0 := by
  have := congrArg fromBE4 h
  rwa [fromBE4_toBE4 _ _ hj, fromBE4_toBE4 _ _ hj0] at this

theorem pull_frame_step (chs : List (List Nat)) (hlen32 : chs.length ≤ 2 ^ 32)
    (id name : String) (s : Client) (t : Download) (m : Msg)
    (hs : s.activeDownload = some t) (hname : s.incomingFileName = some name)
    (hid : t.id = id) (hinv : SeqInv chs t) (hm : m ∈ frames 0 chs) :
    (∃ t', (pull s id m).1.activeDownload = some t' ∧
      (pull s id m).1.incomingFileName = some name ∧
      t'.id = id ∧ SeqInv chs t' ∧ (pull s id m).2 = [] ∧
      (∀ j, (t.chunks.getD j none).isSome → (t'.chunks.getD j none).isSome) ∧
      (∀ j, j < chs.length → m = Msg.data (toBE4 j ++ chs.getD j []) →
        (t'.chunks.getD j none).isSome)) ∨
    ((pull s id m).1.activeDownload = none ∧
      (pull s id m).2 = [Ev.complete id name chs.flatten]) := by
  obtain ⟨j0, hj0, hmeq⟩ := (mem_frames chs 0 m).mp hm
  rw [Nat.zero_add] at hmeq
  subst hmeq
  have hj32 : j0 < 2 ^ 32 := lt_of_lt_of_le hj0 hlen32
  have hidx : fromBE4 (toBE4 j0 ++ chs.getD j0 []) = j0 := fromBE4_toBE4 _ _ hj32
  have hdrop : (toBE4 j0 ++ chs.getD j0 []).drop 4 = chs.getD j0 [] := drop4_toBE4 _ _
  obtain ⟨htot, hclen, hval, hcount, hbytes⟩ := hinv
  by_cases hslot : t.chunks.getD j0 none = none
  · -- first delivery of this index: the chunk is stored and counted
    set t' : Download :=
      { t with chunks := arrWrite t.chunks j0 (chs.getD j0 [])
               receivedCount := t.receivedCount + 1
               bytesRx := t.bytesRx + (chs.getD j0 []).length } with ht'
    have hpull : pull s id (Msg.data (toBE4 j0 ++ chs.getD j0 [])) =
        if t'.receivedCount = t'.totalChunks then
          save { s with activeDownload := some t' } id
        else ({ s with activeDownload := some t' }, []) := by
      simp only [pull, hs]
      rw [if_pos hid]
      simp only [hidx, hdrop, hslot, Option.isNone_none, if_true, ht']
    have hlen' : t'.chunks.length = chs.length := by
      rw [ht']
      show (arrWrite t.chunks j0 (chs.getD j0 [])).length = chs.length
      rw [length_arrWrite t.chunks j0 _ (by rw [hclen]; exact hj0), hclen]
    have hinv' : SeqInv chs t' := by
      refine ⟨htot, hlen', ?_, ?_, ?_⟩
      · intro j hj
        by_cases hjj : j = j0
        · subst hjj
          right
          rw [ht']
          show (arrWrite t.chunks j _).getD j none = _
          rw [getD_arrWrite_self]
        · rw [ht']
          show (arrWrite t.chunks j0 _).getD j none = none ∨ _
          rw [getD_arrWrite_ne t.chunks j0 j _ hjj (by rw [hclen]; exact hj)]
          exact hval j hj
      · rw [ht']
        show t.receivedCount + 1 = countStored (arrWrite t.chunks j0 _)
        rw [countStored_arrWrite t.chunks j0 _ hslot, hcount]
      · rw [ht']
        show t.bytesRx + (chs.getD j0 []).length = storedBytes (arrWrite t.chunks j0 _)
        rw [storedBytes_arrWrite t.chunks j0 _ hslot, hbytes]
    have hstored' : (t'.chunks.getD j0 none).isSome := by
      rw [ht']
      show ((arrWrite t.chunks j0 _).getD j0 none).isSome
      rw [getD_arrWrite_self]
      rfl
    have hmono : ∀ j, (t.chunks.getD j none).isSome → (t'.chunks.getD j none).isSome := by
      intro j hjs
      by_cases hjj : j = j0
      · subst hjj; exact hstored'
      · rw [ht']
        show ((arrWrite t.chunks j0 _).getD j none).isSome
        rw [getD_arrWrite_ne t.chunks j0 j _ hjj
          (lt_length_of_getD_ne t.chunks j (by
            intro hh
            rw [hh] at hjs
            simp at hjs))]
        exact hjs
    by_cases hfull : t'.receivedCount = t'.totalChunks
    · right
      rw [hpull, if_pos hfull]
      have hall := all_stored_of_count_full chs t' hinv' hfull
      have hassemble := assemble_of_full chs t' hinv' hall
      refine ⟨rfl, ?_⟩
      show (save { activeDownload := some t', incomingFileName := s.incomingFileName } id).2
          = [Ev.complete id name chs.flatten]
      rw [hname]
      simp only [save, Option.getD_some]
      rw [hassemble]
    · left
      refine ⟨t', ?_, ?_, ?_, hinv', ?_, hmono, ?_⟩
      · rw [hpull, if_neg hfull]
      · rw [hpull, if_neg hfull]
        exact hname
      · rw [ht']; exact hid
      · rw [hpull, if_neg hfull]
      · intro j hj hje
        have heq : toBE4 j0 ++ chs.getD j0 [] = toBE4 j ++ chs.getD j [] := by
          injection hje
        have hjj : j0 = j := frame_index_inj j0 j chs hj32 (lt_of_lt_of_le hj hlen32) heq
        subst hjj
        exact hstored'
  · -- duplicate delivery: nothing changes
    have hsome : (t.chunks.getD j0 none).isSome := by
      cases hgot : t.chunks.getD j0 none with
      | none => exact absurd hgot hslot
      | some v => rfl
    have hisnone : (t.chunks.getD j0 none).isNone = false := by
      cases hgot : t.chunks.getD j0 none with
      | none => exact absurd hgot hslot
      | some v => rfl
    have hpull : pull s id (Msg.data (toBE4 j0 ++ chs.getD j0 [])) =
        if t.receivedCount = t.totalChunks then
          save { s with activeDownload := some t } id
        else ({ s with activeDownload := some t }, []) := by
      simp only [pull, hs]
      rw [if_pos hid]
      simp only [hidx, hdrop, hisnone, Bool.false_eq_true, if_false]
    by_cases hfull : t.receivedCount = t.totalChunks
    · right
      rw [hpull, if_pos hfull]
      have hall := all_stored_of_count_full chs t ⟨htot, hclen, hval, hcount, hbytes⟩ hfull
      have hassemble := assemble_of_full chs t ⟨htot, hclen, hval, hcount, hbytes⟩ hall
      refine ⟨rfl, ?_⟩
      show (save { activeDownload := some t, incomingFileName := s.incomingFileName } id).2
          = [Ev.complete id name chs.flatten]
      rw [hname]
      simp only [save, Option.getD_some]
      rw [hassemble]
    · left
      refine ⟨t, ?_, ?_, hid, ⟨htot, hclen, hval, hcount, hbytes⟩, ?_, fun j h => h, ?_⟩
      · rw [hpull, if_neg hfull]
      · rw [hpull, if_neg hfull]
        exact hname
      · rw [hpull, if_neg hfull]
      · intro j hj hje
        have heq : toBE4 j0 ++ chs.getD j0 [] = toBE4 j ++ chs.getD j [] := by
          injection hje
        have hjj : j0 = j := frame_index_inj j0 j chs hj32 (lt_of_lt_of_le hj hlen32) heq
        subst hjj
        exact hsome

theorem run_frames (chs : List (List Nat)) (hlen32 : chs.length ≤ 2 ^ 32)
    (id name : String) :
    ∀ (ds : List Msg) (s : Client) (t : Download),
      (∀ m ∈ ds, m ∈ frames 0 chs) →
      s.activeDownload = some t → s.incomingFileName = some name → t.id = id →
      SeqInv chs t →
      (∃ t', (run s id ds).1.activeDownload = some t' ∧
        (run s id ds).1.incomingFileName = some name ∧ t'.id = id ∧
        SeqInv chs t' ∧ (run s id ds).2 = [] ∧
        (∀ j, (t.chunks.getD j none).isSome → (t'.chunks.getD j none).isSome) ∧
        (∀ j, j < chs.length → Msg.data (toBE4 j ++ chs.getD j []) ∈ ds →
          (t'.chunks.getD j none).isSome)) ∨
      ((run s id ds).1.activeDownload = none ∧
        (run s id ds).2 = [Ev.complete id name chs.flatten]) := by
  intro ds
  induction ds with
  | nil =>
    intro s t hds hs hname hid hinv
    left
    exact ⟨t, hs, hname, hid, hinv, rfl, fun j h => h,
      fun j hj hmem => by simp at hmem⟩
  | cons m rest ih =>
    intro s t hds hs hname hid hinv
    have hm : m ∈ frames 0 chs := hds m (List.mem_cons_self m rest)
    have hrun : run s id (m :: rest) =
        ((run (pull s id m).1 id rest).1,
          (pull s id m).2 ++ (run (pull s id m).1 id rest).2) := by
      simp only [run]
    rcases pull_frame_step chs hlen32 id name s t m hs hname hid hinv hm with
      ⟨t1, h1s, h1n, h1id, h1inv, h1ev, h1mono, h1st⟩ | ⟨hnone, hev⟩
    · rcases ih (pull s id m).1 t1
        (fun m' hm' => hds m' (List.mem_cons_of_mem _ hm')) h1s h1n h1id h1inv with
        ⟨t', h2s, h2n, h2id, h2inv, h2ev, h2mono, h2st⟩ | ⟨h2none, h2ev⟩
      · left
        refine ⟨t', ?_, ?_, h2id, h2inv, ?_, ?_, ?_⟩
        · rw [hrun]; exact h2s
        · rw [hrun]; exact h2n
        · rw [hrun]; simp [h1ev, h2ev]
        · intro j hj
          exact h2mono j (h1mono j hj)
        · intro j hj hmem
          rcases List.mem_cons.mp hmem with heq | hmem'
          · exact h2mono j (h1st j hj heq.symm)
          · exact h2st j hj hmem'
      · right
        rw [hrun]
        exact ⟨h2none, by simp [h1ev, h2ev]⟩
    · right
      rw [hrun]
      have hrest := run_of_none (pull s id m).1 id rest hnone
      rw [hrest]
      exact ⟨hnone, by simp [hev]⟩

theorem save_some (s : Client) (id : String) (t : Download)
    (h : s.activeDownload = some t) :
    save s id = ({ s with activeDownload := none },
      [Ev.complete id (s.incomingFileName.getD "download") (assemble t.chunks)]) := by
  simp [save, h]

/-- Sequenced round trip: delivering every indexed frame of `Supr.push` (in
any order, duplicates allowed) followed by `'DONE'` makes the receiver emit
exactly one completion whose payload is the original file. -/
theorem supr_roundtrip (file : List Nat) (hostId name : String) (ds : List Msg)
    (hlen32 : ceilDiv file.length CHUNK_SIZE ≤ 2 ^ 32)
    (hcov : ∀ m, m ∈ ds ↔ m ∈ frames 0 (chunksOf CHUNK_SIZE file)) :
    (run (acceptFile hostId name file.length) hostId (ds ++ [Msg.done])).2
      = [Ev.complete hostId name file] := by
  have hCne : CHUNK_SIZE ≠ 0 := by decide
  set chs := chunksOf CHUNK_SIZE file with hchs
  have hchl : chs.length = ceilDiv file.length CHUNK_SIZE :=
    length_chunksOf _ hCne file
  have hlen32' : chs.length ≤ 2 ^ 32 := by rw [hchl]; exact hlen32
  have hflat : chs.flatten = file := flatten_chunksOf _ hCne file
  set t0 : Download :=
    { id := hostId
      chunks := List.replicate (ceilDiv file.length CHUNK_SIZE) none
      receivedCount := 0
      totalChunks := ceilDiv file.length CHUNK_SIZE
      bytesRx := 0 } with ht0
  have hs0 : (acceptFile hostId name file.length).activeDownload = some t0 := rfl
  have hn0 : (acceptFile hostId name file.length).incomingFileName = some name := rfl
  have hinv0 : SeqInv chs t0 := by
    refine ⟨hchl.symm, by simp [ht0, hchl], ?_, ?_, ?_⟩
    · intro j hj
      left
      rw [ht0]
      exact getD_replicate_none _ _
    · rw [ht0]
      show 0 = countStored (List.replicate _ none)
      rw [countStored_replicate]
    · rw [ht0]
      show 0 = storedBytes (List.replicate _ none)
      rw [storedBytes_replicate]
  rw [run_append]
  rcases run_frames chs hlen32' hostId name ds (acceptFile hostId name file.length)
      t0 (fun m hm => (hcov m).mp hm) hs0 hn0 rfl hinv0 with
    ⟨t', h2s, h2n, h2id, h2inv, h2ev, _, h2st⟩ | ⟨h2none, h2ev⟩
  · have hall : ∀ j, j < chs.length → (t'.chunks.getD j none).isSome := by
      intro j hj
      refine h2st j hj ?_
      exact (hcov _).mpr ((mem_frames chs 0 _).mpr ⟨j, hj, by rw [Nat.zero_add]⟩)
    have hassemble : assemble t'.chunks = file := by
      rw [assemble_of_full chs t' h2inv hall, hflat]
    have hdone : run (run (acceptFile hostId name file.length) hostId ds).1 hostId
        [Msg.done] =
        (({ (run (acceptFile hostId name file.length) hostId ds).1 with
            activeDownload := none }), [Ev.complete hostId name file]) := by
      simp only [run]
      show ((save _ hostId).1, (save _ hostId).2 ++ []) = _
      rw [save_some _ hostId t' h2s]
      simp [h2n, hassemble]
    rw [h2ev, hdone]
    simp
  · rw [h2ev]
    have hdone := run_of_none (run (acceptFile hostId name file.length) hostId ds).1
      hostId [Msg.done] h2none
    rw [hdone, hflat]
    simp

end Supr

/-! ### The `SuperGO` relay engine (`src/unnamed/part_003`)

Socket-relayed transfer with a busy/offer handshake.  Devices are modelled
by their ids, files by name plus byte content (`size` is the byte count). -/

namespace SuperGO

/-- The 256 KiB chunk size of `_sendFileChunks`. -/
def CHUNK_SIZE : Nat := 256 * 1024

/-- The 50 MiB consolidation threshold of `_receiveChunk`. -/
def CONSOLIDATE_THRESHOLD : Nat := 50 * 1024 * 1024

/-- A file handed to `sendFile`: name, MIME type and content bytes. -/
structure GoFile where
  name : String
  type : String
  bytes : List Nat
deriving DecidableEq

/-- The metadata of an `incoming-file` socket message. -/
structure Offer where
  senderId : String
  fileName : String
  fileSize : Nat
deriving DecidableEq

/-- `this.activeTransfer`: either the sender-side record created by
`_sendFileChunks` (`{targetId, aborted, startTime}`) or the receiver-side
record created by `acceptFile` (`{senderId, chunks, received, total,
fileName, lastConsolidate}`).  Timing fields are not modelled. -/
inductive Active where
  | sending (targetId : String) (aborted : Bool) : Active
  | receiving (senderId : String) (chunks : List (List Nat)) (received : Nat)
      (total : Nat) (fileName : String) (lastConsolidate : Nat) : Active
deriving DecidableEq

/-- Messages emitted on the signalling socket. -/
inductive GoMsg where
  | rejectFile (senderId : String) (reason : String) : GoMsg
  | sendFileInfo (targetId : String) (fileName : String) (fileSize : Nat) : GoMsg
  | acceptFile (senderId : String) : GoMsg
  | fileChunk (targetId : String) (data : List Nat) : GoMsg
  | fileComplete (targetId : String) : GoMsg
deriving DecidableEq

/-- Events emitted to the UI layer (timing-throttled progress events are not
modelled). -/
inductive GoEv where
  | devicesUpdated (ids : List String) : GoEv
  | incomingFile (senderId : String) (fileName : String) (fileSize : Nat) : GoEv
  | incomingFileCancelled : GoEv
  | transferPending (targetId : String) : GoEv
  | transferStarted (targetId : String) (fileName : String) (total : Nat) : GoEv
  | transferComplete (targetId : String) (fileName : String) : GoEv
  | transferRejected (reason : String) : GoEv
  | transferError (peerId : String) (error : String) : GoEv
  | fileReceived (senderId : String) (fileName : String) (payload : List Nat) : GoEv
deriving DecidableEq

/-- The mutable state of a `SuperGO` instance. -/
structure GoState where
  devices : List String
  activeTransfer : Option Active
  pendingTransfer : Option GoFile
  pendingTargetId : Option String
  incomingRequest : Option Offer
  completedTransfers : List String
deriving DecidableEq

/-- The state of a freshly constructed engine. -/
def goInit : GoState :=
  { devices := []
    activeTransfer := none
    pendingTransfer := none
    pendingTargetId := none
    incomingRequest := none
    completedTransfers := [] }

/-- The `incoming-file` socket handler: rejects with a busy signal when a
transfer is active or another incoming request is pending, otherwise records
the request and surfaces it. -/
def incomingFile (d : Offer) (s : GoState) : GoState × List GoMsg × List GoEv :=
  if s.activeTransfer.isSome then
    (s, [GoMsg.rejectFile d.senderId "busy"], [])
  else if s.incomingRequest.isSome then
    (s, [GoMsg.rejectFile d.senderId "busy"], [])
  else
    ({ s with incomingRequest := some d }, [],
     [GoEv.incomingFile d.senderId d.fileName d.fileSize])

/-- `SuperGO.sendFile`: refuses empty files and the already-busy cases
locally (`activeTransfer` or `pendingTransfer` present), otherwise records
the pending offer and emits the offer metadata on the socket. -/
def sendFile (targetId : String) (file : Option GoFile) (s : GoState) :
    GoState × List GoMsg × List GoEv :=
  match file with
  | none => (s, [], [GoEv.transferError targetId "Empty file"])
  | some f =>
    if f.bytes.length = 0 then
      (s, [], [GoEv.transferError targetId "Empty file"])
    else if s.activeTransfer.isSome || s.pendingTransfer.isSome then
      (s, [], [GoEv.transferError targetId "Already busy"])
    else
      ({ s with pendingTransfer := some f, pendingTargetId := some targetId },
       [GoMsg.sendFileInfo targetId f.name f.bytes.length],
       [GoEv.transferPending targetId])

/-- `SuperGO.acceptFile`: ignores stale accepts, otherwise clears the pending
request, creates the receiver-side session and answers on the socket. -/
def acceptFile (senderId : String) (metaName : String) (metaSize : Nat)
    (s : GoState) : GoState × List GoMsg :=
  match s.incomingRequest with
  | none => (s, [])
  | some r =>
    if r.senderId = senderId then
      let act := Active.receiving senderId [] 0 metaSize metaName 0
      ({ s with incomingRequest := none, activeTransfer := some act },
       [GoMsg.acceptFile senderId])
    else (s, [])

/-- `SuperGO._receiveChunk`: drops chunks for a wrong or missing transfer,
appends the chunk, adds its length to `received`, and consolidates the
fragment list into a single block once more than 50 MiB accumulated since the
last consolidation. -/
def receiveChunk (senderId : String) (bytes : List Nat) (s : GoState) : GoState :=
  match s.activeTransfer with
  | some (Active.receiving sid chunks received total name lastCons) =>
    if sid = senderId then
      let chunks' := chunks ++ [bytes]
      let received' := received + bytes.length
      if received' - lastCons > CONSOLIDATE_THRESHOLD then
        let act := Active.receiving sid [chunks'.flatten] received' total name received'
        { s with activeTransfer := some act }
      else
        let act := Active.receiving sid chunks' received' total name lastCons
        { s with activeTransfer := some act }
    else s
  | _ => s

/-- `SuperGO._finalizeFile`: ignores a completion for a wrong or missing
transfer, suppresses duplicate completions via the `_completedTransfers` key
set (the timed removal of keys after five seconds is outside the model),
otherwise assembles the blob, clears the session and emits `fileReceived`. -/
def finalizeFile (senderId : String) (s : GoState) : GoState × List GoEv :=
  match s.activeTransfer with
  | some (Active.receiving sid chunks _ _ name _) =>
    if sid = senderId then
      let key := senderId ++ "-" ++ name
      if key ∈ s.completedTransfers then (s, [])
      else
        ({ s with activeTransfer := none
                  completedTransfers := key :: s.completedTransfers },
         [GoEv.fileReceived senderId name chunks.flatten])
    else (s, [])
  | _ => (s, [])

/-- The socket messages emitted by an uninterrupted `_sendFileChunks` loop:
every 256 KiB chunk in order, then `file-complete`. -/
def sendFileChunksMsgs (targetId : String) (bytes : List Nat) : List GoMsg :=
  (chunksOf CHUNK_SIZE bytes).map (GoMsg.fileChunk targetId) ++
    [GoMsg.fileComplete targetId]

/-- The abort guard at the top of each `_sendFileChunks` loop iteration: when
the transfer is gone or marked aborted it clears the session and emits one
`transferError` naming the target; otherwise the loop continues. -/
def sendChunksAbortCheck (targetId : String) (s : GoState) :
    Option (GoState × List GoEv) :=
  match s.activeTransfer with
  | none =>
    some ({ s with activeTransfer := none },
      [GoEv.transferError targetId "Device disconnected"])
  | some (Active.sending _ aborted) =>
    if aborted then
      some ({ s with activeTransfer := none },
        [GoEv.transferError targetId "Device disconnected"])
    else none
  | some _ => none

/-- The `devices` socket handler: refreshes the device list and runs the four
peer-loss edge-case checks in source order. -/
def devicesHandler (list : List String) (s : GoState) : GoState × List GoEv :=
  let s0 : GoState := { s with devices := list }
  let step1 : GoState :=
    match s0.activeTransfer with
    | some (Active.sending tid aborted) =>
      if tid ∈ list then s0
      else { s0 with activeTransfer := some (Active.sending tid true) }
    | _ => s0
  let step2 : GoState × List GoEv :=
    match step1.activeTransfer with
    | some (Active.receiving sid chunks received total name lastCons) =>
      if sid ∈ list then (step1, [])
      else ({ step1 with activeTransfer := none },
        [GoEv.transferError sid "Sender disconnected"])
    | _ => (step1, [])
  let step3 : GoState × List GoEv :=
    match step2.1.pendingTargetId with
    | some tid =>
      if tid ∈ list then (step2.1, [])
      else ({ step2.1 with pendingTransfer := none, pendingTargetId := none },
        [GoEv.transferRejected "Device disconnected"])
    | none => (step2.1, [])
  let step4 : GoState × List GoEv :=
    match step3.1.incomingRequest with
    | some r =>
      if r.senderId ∈ list then (step3.1, [])
      else ({ step3.1 with incomingRequest := none }, [GoEv.incomingFileCancelled])
    | none => (step3.1, [])
  (step4.1, GoEv.devicesUpdated list :: (step2.2 ++ step3.2 ++ step4.2))

/-- Folding a list of relayed chunks through `_receiveChunk`. -/
def runReceive (senderId : String) (datas : List (List Nat)) (s : GoState) :
    GoState :=
  datas.foldl (fun st b => receiveChunk senderId b st) s

/-- The chunk payloads carried by a list of socket messages. -/
def chunkDatas (msgs : List GoMsg) : List (List Nat) :=
  msgs.filterMap (fun m =>
    match m with
    | GoMsg.fileChunk _ b => some b
    | _ => none)

/-- Cancellation/error events, the events the peer-loss claims count. -/
def isCancelEv (e : GoEv) : Bool :=
  match e with
  | GoEv.transferError _ _ => true
  | GoEv.transferRejected _ => true
  | GoEv.incomingFileCancelled => true
  | _ => false

/-- Whether an emitted event carries the identity of the given peer. -/
def evMentionsPeer (e : GoEv) (peer : String) : Bool :=
  match e with
  | GoEv.transferError p _ => p = peer
  | GoEv.fileReceived p _ _ => p = peer
  | GoEv.incomingFile p _ _ => p = peer
  | GoEv.transferStarted p _ _ => p = peer
  | GoEv.transferComplete p _ => p = peer
  | GoEv.transferPending p => p = peer
  | _ => false

end SuperGO

theorem flatten_take_length_le (l : List (List Nat)) (k : Nat) :
    ((l.take k).flatten).length ≤ l.flatten.length := by
  conv_rhs => rw [← List.take_append_drop k l]
  rw [List.flatten_append, List.length_append]
  omega

namespace SuperGO

/-- Replaces the `activeTransfer` field, leaving all other state untouched. -/
def setActive (s : GoState) (a : Option Active) : GoState :=
  { s with activeTransfer := a }

theorem setActive_activeTransfer (s : GoState) (a : Option Active) :
    (setActive s a).activeTransfer = a := rfl

theorem setActive_setActive (s : GoState) (a b : Option Active) :
    setActive (setActive s a) b = setActive s b := rfl

/-- One `_receiveChunk` step on a matching receiver session: the byte count
grows by the chunk length and the concatenated buffer content grows by the
chunk, whether or not the consolidation branch fires. -/
theorem receiveChunk_receiving (sid : String) (chunks : List (List Nat))
    (received total : Nat) (name : String) (lastCons : Nat) (b : List Nat)
    (s : GoState)
    (hs : s.activeTransfer =
      some (Active.receiving sid chunks received total name lastCons)) :
    ∃ chunks' lastCons',
      receiveChunk sid b s =
        setActive s (some (Active.receiving sid chunks'
          (received + b.length) total name lastCons')) ∧
      chunks'.flatten = chunks.flatten ++ b := by
  simp only [receiveChunk, hs, eq_self_iff_true, if_true]
  by_cases h : received + b.length - lastCons > CONSOLIDATE_THRESHOLD
  · refine ⟨[(chunks ++ [b]).flatten], received + b.length, ?_, by simp⟩
    simp only [h, if_true, setActive]
  · refine ⟨chunks ++ [b], lastCons, ?_, by simp⟩
    simp only [h, if_false, setActive]

/-- Folding any chunk sequence through `_receiveChunk` on a matching session:
only `activeTransfer` changes, `received` grows by the total delivered bytes,
and the buffer flattens to the previous content followed by the delivered
bytes in order. -/
theorem runReceive_inv (sid name : String) (total : Nat) :
    ∀ (datas : List (List Nat)) (s : GoState) (chunks : List (List Nat))
      (received lastCons : Nat),
      s.activeTransfer =
        some (Active.receiving sid chunks received total name lastCons) →
      ∃ chunks' lastCons',
        runReceive sid datas s =
          setActive s (some (Active.receiving sid chunks'
            (received + (datas.map List.length).sum) total name lastCons')) ∧
        chunks'.flatten = chunks.flatten ++ datas.flatten := by
  intro datas
  induction datas with
  | nil =>
    intro s chunks received lastCons hs
    refine ⟨chunks, lastCons, ?_, by simp⟩
    simp only [runReceive, List.foldl_nil, List.map_nil, List.sum_nil, Nat.add_zero]
    rw [setActive, ← hs]
  | cons b rest ih =>
    intro s chunks received lastCons hs
    obtain ⟨c1, l1, hstep, hflat1⟩ :=
      receiveChunk_receiving sid chunks received total name lastCons b s hs
    have hs1 : (receiveChunk sid b s).activeTransfer =
        some (Active.receiving sid c1 (received + b.length) total name l1) := by
      rw [hstep, setActive_activeTransfer]
    obtain ⟨c2, l2, hrun, hflat2⟩ :=
      ih (receiveChunk sid b s) c1 (received + b.length) l1 hs1
    refine ⟨c2, l2, ?_, ?_⟩
    · show runReceive sid (b :: rest) s = _
      have hshift : runReceive sid (b :: rest) s =
          runReceive sid rest (receiveChunk sid b s) := by
        simp [runReceive]
      rw [hshift, hrun, hstep, setActive_setActive]
      simp only [List.map_cons, List.sum_cons]
      rw [Nat.add_assoc]
    · rw [hflat2, hflat1, List.flatten_cons, List.append_assoc]

theorem chunkDatas_msgs (target : String) (l : List (List Nat)) :
    chunkDatas (l.map (GoMsg.fileChunk target) ++ [GoMsg.fileComplete target]) = l := by
  induction l with
  | nil => rfl
  | cons x xs ih =>
    show x :: chunkDatas (xs.map (GoMsg.fileChunk target) ++
      [GoMsg.fileComplete target]) = x :: xs
    rw [ih]

theorem chunkDatas_sendFileChunksMsgs (target : String) (bytes : List Nat) :
    chunkDatas (sendFileChunksMsgs target bytes) = chunksOf CHUNK_SIZE bytes :=
  chunkDatas_msgs target (chunksOf CHUNK_SIZE bytes)

/-- Relay round trip through the full pipeline: offer, accept, every chunk
of the uninterrupted sender loop in order, then finalize, producing exactly
one `fileReceived` carrying the original bytes. -/
theorem relay_roundtrip (sender target fname : String) (bytes : List Nat) :
    (finalizeFile sender
      (runReceive sender (chunkDatas (sendFileChunksMsgs target bytes))
        (acceptFile sender fname bytes.length
          (incomingFile ⟨sender, fname, bytes.length⟩ goInit).1).1)).2
      = [GoEv.fileReceived sender fname bytes] := by
  have hCne : CHUNK_SIZE ≠ 0 := by decide
  have hs2 : (acceptFile sender fname bytes.length
      (incomingFile ⟨sender, fname, bytes.length⟩ goInit).1).1 =
      setActive goInit
        (some (Active.receiving sender [] 0 bytes.length fname 0)) := by
    simp [incomingFile, goInit, acceptFile, setActive]
  rw [chunkDatas_sendFileChunksMsgs, hs2]
  obtain ⟨chunks', lastCons', hrun, hflat⟩ :=
    runReceive_inv sender fname bytes.length (chunksOf CHUNK_SIZE bytes)
      (setActive goInit (some (Active.receiving sender [] 0 bytes.length fname 0)))
      [] 0 0 rfl
  rw [hrun]
  have hpayload : chunks'.flatten = bytes := by
    rw [hflat]
    simp [flatten_chunksOf CHUNK_SIZE hCne bytes]
  simp [finalizeFile, setActive, goInit, hpayload]

end SuperGO

/-! ### The `P4` engine (`src/unnamed/part_004`)

The P2P variant: `_sendFile` with its empty-file branch and buffered-amount
backpressure, `_receiveChunk` creating the download lazily on the first
chunk, and `_finalizeFile` which only emits a completion when at least one
chunk was stored. -/

namespace P4

/-- Default `config.chunkSize` (256 KiB). -/
def chunkSize : Nat := 256 * 1024

/-- Default `config.maxBufferedAmount` (32 MiB). -/
def maxBufferedAmount : Nat := 32 * 1024 * 1024

/-- Data-channel messages of one transfer (`fileIndex` fixed). -/
inductive P4Msg where
  | chunk (bytes : List Nat) : P4Msg
  | fileEnd : P4Msg
deriving DecidableEq

/-- The frames an uninterrupted `_sendFile` emits for one file: a zero-size
file sends `file-end` alone (the early branch); otherwise every chunk in
order followed by `file-end`.  No start control frame exists — transfer
start is signalled by file-list metadata, not by a frame. -/
def sendFrames (file : List Nat) : List P4Msg :=
  if file.length = 0 then [P4Msg.fileEnd]
  else (chunksOf chunkSize file).map P4Msg.chunk ++ [P4Msg.fileEnd]

/-- A `transfers`-map entry created by `_initDownload`. -/
structure Transfer where
  bytesReceived : Nat
  total : Nat
  name : String
  chunks : List (List Nat)
deriving DecidableEq

/-- Receiver-side state for one `(peer, fileIndex)` pair: the transfer entry
and the `peerFiles` metadata (name, size) used by `_receiveChunk` to create
it. -/
structure P4State where
  transfer : Option Transfer
  fileMeta : Option (String × Nat)
deriving DecidableEq

inductive P4Ev where
  | downloadStarted (name : String) : P4Ev
  | complete (name : String) (payload : List Nat) : P4Ev
deriving DecidableEq

/-- `_receiveChunk`: creates the transfer from the file metadata on the
first chunk (dropping the chunk when no metadata is known), then appends the
chunk and adds its length to `bytesReceived`. -/
def receiveChunk (bytes : List Nat) (s : P4State) : P4State × List P4Ev :=
  match s.transfer with
  | some tr =>
    let tr' : Transfer :=
      { tr with
        chunks := tr.chunks ++ [bytes]
        bytesReceived := tr.bytesReceived + bytes.length }
    ({ s with transfer := some tr' }, [])
  | none =>
    match s.fileMeta with
    | none => (s, [])
    | some (name, size) =>
      let tr : Transfer :=
        { bytesReceived := bytes.length
          total := size
          name := name
          chunks := [bytes] }
      ({ s with transfer := some tr }, [P4Ev.downloadStarted name])

/-- `_finalizeFile`: emits `complete` only when a transfer with at least one
stored chunk exists, and always deletes the transfer entry. -/
def finalizeFile (s : P4State) : P4State × List P4Ev :=
  match s.transfer with
  | some tr =>
    if tr.chunks.length > 0 then
      ({ s with transfer := none }, [P4Ev.complete tr.name tr.chunks.flatten])
    else ({ s with transfer := none }, [])
  | none => (s, [])

/-- `_handleData` restricted to the two transfer frame kinds. -/
def handleData (m : P4Msg) (s : P4State) : P4State × List P4Ev :=
  match m with
  | P4Msg.chunk bytes => receiveChunk bytes s
  | P4Msg.fileEnd => finalizeFile s

/-- Processes a frame list, accumulating events. -/
def runP4 (s : P4State) : List P4Msg → P4State × List P4Ev
  | [] => (s, [])
  | m :: ms =>
    let r := handleData m s
    let rest := runP4 r.1 ms
    (rest.1, r.2 ++ rest.2)

/-- One evaluation of the `_sendFile` backpressure wait condition
`dc.bufferedAmount > maxBufferedAmount && conn.open`, over successive
observations `(bufferedAmount, open)`: returns the observation at which the
wait loop exits and the chunk send proceeds (`none` when the loop never
exits within the observed trace). -/
def waitDecide : List (Nat × Bool) → Option (Nat × Bool)
  | [] => none
  | r :: rs =>
    if maxBufferedAmount < r.1 ∧ r.2 = true then waitDecide rs else some r

/-- The wait loop releases a send only once the buffered amount is back
under the high-water mark — as long as the connection stays open. -/
theorem waitDecide_le (readings : List (Nat × Bool)) (b : Nat)
    (h : waitDecide readings = some (b, true)) : b ≤ maxBufferedAmount := by
  induction readings with
  | nil => simp [waitDecide] at h
  | cons r rs ih =>
    by_cases hc : maxBufferedAmount < r.1 ∧ r.2 = true
    · rw [waitDecide, if_pos hc] at h
      exact ih h
    · rw [waitDecide, if_neg hc] at h
      injection h with h2
      subst h2
      simp at hc
      omega

end P4

namespace Supr

/-- Events of the `push` pump loop: `sentChunk i b` records that the frame
for chunk `i` was sent when `dc.bufferedAmount` read `b`; `sentDone` records
the final `'DONE'` string. -/
inductive PumpEv where
  | sentChunk (index : Nat) (buffered : Nat) : PumpEv
  | sentDone : PumpEv
deriving DecidableEq

/-- The complete pump execution of `Supr.push`.  `readings` is the sequence
of `dc.bufferedAmount` observations, one per evaluation of the while-loop
condition `bufferedAmount <= BUFFER_HI_WATER && offset < total`.  A chunk is
sent only when the observation is at or under the high-water mark; an
observation over the mark produces no frame — the pump suspends (registering
`onbufferedamountlow`, with the 1-second watchdog as backstop) and the next
observation is its re-entry.  When `offset` reaches `total` the loop exits
and `'DONE'` is sent. -/
def pumpExec (total : Nat) : List Nat → Nat → Nat → List PumpEv
  | [], _, _ => []
  | r :: rs, offset, idx =>
    if offset < total then
      if r ≤ BUFFER_HI_WATER then
        PumpEv.sentChunk idx r ::
          pumpExec total rs (offset + min CHUNK_SIZE (total - offset)) (idx + 1)
      else pumpExec total rs offset idx
    else [PumpEv.sentDone]

/-- Every chunk frame is sent at an observation at or under the mark. -/
theorem pumpExec_sent_le (total : Nat) :
    ∀ (readings : List Nat) (offset idx i b : Nat),
      PumpEv.sentChunk i b ∈ pumpExec total readings offset idx →
      b ≤ BUFFER_HI_WATER := by
  intro readings
  induction readings with
  | nil =>
    intro offset idx i b h
    simp [pumpExec] at h
  | cons r rs ih =>
    intro offset idx i b h
    by_cases ho : offset < total
    · rw [pumpExec, if_pos ho] at h
      by_cases hr : r ≤ BUFFER_HI_WATER
      · rw [if_pos hr] at h
        rcases List.mem_cons.mp h with heq | hmem
        · cases heq
          exact hr
        · exact ih _ _ i b hmem
      · rw [if_neg hr] at h
        exact ih _ _ i b h
    · rw [pumpExec, if_neg ho] at h
      simp at h

/-- An observation over the mark produces no frame at all: the pump merely
suspends until the next observation. -/
theorem pumpExec_suspends (total : Nat) (r : Nat) (rs : List Nat)
    (offset idx : Nat) (ho : offset < total) (hr : BUFFER_HI_WATER < r) :
    pumpExec total (r :: rs) offset idx = pumpExec total rs offset idx := by
  rw [pumpExec, if_pos ho, if_neg (by omega)]

theorem ceilDiv_sub_min (d c : Nat) (hc : c ≠ 0) (hd : 0 < d) :
    ceilDiv (d - min c d) c = ceilDiv d c - 1 := by
  have hc1 : 0 < c := Nat.pos_of_ne_zero hc
  rcases le_or_lt d c with hle | hlt
  · have hmin : min c d = d := by omega
    rw [hmin, Nat.sub_self]
    have h0 : ceilDiv 0 c = 0 := by
      simp only [ceilDiv, Nat.zero_add]
      exact Nat.div_eq_of_lt (by omega)
    have h1 : ceilDiv d c = 1 := by
      simp only [ceilDiv]
      apply Nat.div_eq_of_lt_le <;> omega
    rw [h0, h1]
  · have hmin : min c d = c := by omega
    rw [hmin]
    simp only [ceilDiv]
    have h1 : d - c + c = d := by omega
    rw [h1]
    have h2 : d + c - 1 = (d - 1) + c := by omega
    rw [h2, Nat.add_div_right _ hc1]
    simp

/-- Whenever the adapter unblocks often enough — at least one under-the-mark
observation per remaining chunk, plus the final loop check — the pump
terminates by sending `'DONE'`. -/
theorem pumpExec_terminates (total : Nat) :
    ∀ (readings : List Nat) (offset idx : Nat),
      ceilDiv (total - offset) CHUNK_SIZE + 1 ≤
        readings.countP (fun x => x ≤ BUFFER_HI_WATER) →
      PumpEv.sentDone ∈ pumpExec total readings offset idx := by
  intro readings
  induction readings with
  | nil =>
    intro offset idx h
    simp [List.countP_nil] at h
  | cons r rs ih =>
    intro offset idx h
    by_cases ho : offset < total
    · rw [pumpExec, if_pos ho]
      by_cases hr : r ≤ BUFFER_HI_WATER
      · rw [if_pos hr]
        refine List.mem_cons_of_mem _ (ih _ _ ?_)
        have hcount : rs.countP (fun x => x ≤ BUFFER_HI_WATER) + 1 =
            (r :: rs).countP (fun x => x ≤ BUFFER_HI_WATER) := by
          rw [List.countP_cons]
          simp [hr]
        have hrem : ceilDiv (total - (offset + min CHUNK_SIZE (total - offset)))
            CHUNK_SIZE = ceilDiv (total - offset) CHUNK_SIZE - 1 := by
          have hd : 0 < total - offset := by omega
          have := ceilDiv_sub_min (total - offset) CHUNK_SIZE (by decide) hd
          have harg : total - (offset + min CHUNK_SIZE (total - offset)) =
              total - offset - min CHUNK_SIZE (total - offset) := by omega
          rw [harg]
          exact this
        have hpos : 0 < ceilDiv (total - offset) CHUNK_SIZE := by
          have hd : 0 < total - offset := by omega
          simp only [ceilDiv]
          have hC : (0:Nat) < CHUNK_SIZE := by decide
          apply Nat.div_pos <;> omega
        rw [hrem]
        omega
      · rw [if_neg hr]
        refine ih _ _ ?_
        have hcount : (r :: rs).countP (fun x => x ≤ BUFFER_HI_WATER) =
            rs.countP (fun x => x ≤ BUFFER_HI_WATER) := by
          rw [List.countP_cons]
          simp [hr]
        omega
    · rw [pumpExec, if_neg ho]
      simp

end Supr

namespace Supr

/-- The two accounting fields always track the sparse store. -/
def Acct (t : Download) : Prop :=
  t.bytesRx = storedBytes t.chunks ∧ t.receivedCount = countStored t.chunks

theorem pull_acct (s : Client) (id : String) (m : Msg) (t t' : Download)
    (hs : s.activeDownload = some t) (hacct : Acct t)
    (hs' : (pull s id m).1.activeDownload = some t') : Acct t' := by
  cases m with
  | done =>
    rw [show pull s id Msg.done = save s id from rfl, save_some s id t hs] at hs'
    simp at hs'
  | data bytes =>
    rw [pull] at hs'
    simp only [hs] at hs'
    by_cases hid : t.id = id
    · rw [if_pos hid] at hs'
      by_cases hslot : (t.chunks.getD (fromBE4 bytes) none).isNone
      · simp only [hslot, if_true] at hs'
        set t1 : Download :=
          { t with chunks := arrWrite t.chunks (fromBE4 bytes) (bytes.drop 4)
                   receivedCount := t.receivedCount + 1
                   bytesRx := t.bytesRx + (bytes.drop 4).length } with ht1
        have hacct1 : Acct t1 := by
          have hnone : t.chunks.getD (fromBE4 bytes) none = none :=
            Option.isNone_iff_eq_none.mp hslot
          constructor
          · show t.bytesRx + (bytes.drop 4).length = storedBytes (arrWrite _ _ _)
            rw [storedBytes_arrWrite _ _ _ hnone, hacct.1]
          · show t.receivedCount + 1 = countStored (arrWrite _ _ _)
            rw [countStored_arrWrite _ _ _ hnone, hacct.2]
        by_cases hfull : t1.receivedCount = t1.totalChunks
        · rw [if_pos hfull] at hs'
          rw [save_some _ id t1 rfl] at hs'
          simp at hs'
        · rw [if_neg hfull] at hs'
          simp at hs'
          rw [← hs']
          exact hacct1
      · have hslotF : (t.chunks.getD (fromBE4 bytes) none).isNone = false := by
          cases hgot : t.chunks.getD (fromBE4 bytes) none with
          | none => rw [hgot] at hslot; exact absurd rfl hslot
          | some v => rfl
        simp only [hslotF, Bool.false_eq_true, if_false] at hs'
        by_cases hfull : t.receivedCount = t.totalChunks
        · rw [if_pos hfull] at hs'
          rw [save_some _ id t rfl] at hs'
          simp at hs'
        · rw [if_neg hfull] at hs'
          simp at hs'
          rw [← hs']
          exact hacct
    · rw [if_neg hid] at hs'
      have hs'' : some t = some t' := by rw [← hs]; exact hs'
      injection hs'' with h
      rw [← h]
      exact hacct

theorem run_acct (id : String) :
    ∀ (ms : List Msg) (s : Client) (t0 : Download),
      s.activeDownload = some t0 → Acct t0 →
      ∀ t, (run s id ms).1.activeDownload = some t → Acct t := by
  intro ms
  induction ms with
  | nil =>
    intro s t0 hs hacct t ht
    simp only [run] at ht
    rw [hs] at ht
    injection ht with h
    rw [← h]
    exact hacct
  | cons m rest ih =>
    intro s t0 hs hacct t ht
    have hrun : (run s id (m :: rest)).1 = (run (pull s id m).1 id rest).1 := by
      simp only [run]
    rw [hrun] at ht
    cases h1 : (pull s id m).1.activeDownload with
    | none =>
      rw [run_of_none _ id rest h1] at ht
      rw [h1] at ht
      simp at ht
    | some t1 =>
      exact ih (pull s id m).1 t1 h1 (pull_acct s id m t0 t1 hs hacct h1) t ht

/-- The assembled payload is exactly as long as the stored byte count. -/
theorem length_assemble (chunks : List (Option (List Nat))) :
    (assemble chunks).length = storedBytes chunks := by
  induction chunks with
  | nil => rfl
  | cons o l ih =>
    cases o with
    | none =>
      show (assemble l).length = storedBytes (none :: l)
      rw [storedBytes_cons, ih]
      simp
    | some v =>
      show ((v :: l.filterMap id).flatten).length = storedBytes (some v :: l)
      rw [List.flatten_cons, List.length_append, storedBytes_cons]
      have : (l.filterMap id).flatten.length = storedBytes l := ih
      rw [this]
      simp

end Supr

namespace SuperGO

/-- The `received` counter of the receiver-side session (0 when no receiver
session is active). -/
def receivedOf (s : GoState) : Nat :=
  match s.activeTransfer with
  | some (Active.receiving _ _ r _ _ _) => r
  | _ => 0

/-- Each chunk receipt can only grow the received-byte counter. -/
theorem receivedOf_mono (s : GoState) (sid : String) (b : List Nat) :
    receivedOf s ≤ receivedOf (receiveChunk sid b s) := by
  cases hs : s.activeTransfer with
  | none => simp [receiveChunk, hs, receivedOf]
  | some a =>
    cases a with
    | sending tid ab => simp [receiveChunk, hs, receivedOf]
    | receiving sid2 chunks received total name lastCons =>
      by_cases hmatch : sid2 = sid
      · obtain ⟨c', l', hstep, _⟩ :=
          receiveChunk_receiving sid2 chunks received total name lastCons b s hs
        rw [hmatch] at hstep
        rw [hstep]
        simp [receivedOf, setActive, hs]
      · simp only [receiveChunk, hs, if_neg hmatch]
        exact le_rfl

end SuperGO

/-! ### The claims -/

/-- C1: for every payload of N ≥ 0 bytes split into fixed-size chunks, a full
send/receive cycle — the sender loop framing and sending every chunk, the
receiver storing each frame, finalize concatenating the retained fragments in
order — yields a reassembled payload byte-identical to the source, over both
the sequenced/unordered direct path (`Supr.push`/`pull`/`save`, any delivery
order and duplicates of the indexed frames followed by `'DONE'`, provided the
chunk count fits the 4-byte index) and the unsequenced relay path
(`SuperGO.sendFile` offer, accept, `_sendFileChunks`, `_receiveChunk`,
`_finalizeFile`). -/
theorem claim1_roundtrip (file : List Nat) (hostId name sender target fname : String)
    (ds : List Supr.Msg)
    (h32 : ceilDiv file.length Supr.CHUNK_SIZE ≤ 2 ^ 32)
    (hcov : ∀ m, m ∈ ds ↔ m ∈ Supr.frames 0 (chunksOf Supr.CHUNK_SIZE file)) :
    (Supr.run (Supr.acceptFile hostId name file.length) hostId
        (ds ++ [Supr.Msg.done])).2 = [Supr.Ev.complete hostId name file] ∧
    (SuperGO.finalizeFile sender
      (SuperGO.runReceive sender
        (SuperGO.chunkDatas (SuperGO.sendFileChunksMsgs target file))
        (SuperGO.acceptFile sender fname file.length
          (SuperGO.incomingFile ⟨sender, fname, file.length⟩ SuperGO.goInit).1).1)).2
      = [SuperGO.GoEv.fileReceived sender fname file] :=
  ⟨Supr.supr_roundtrip file hostId name ds h32 hcov,
   SuperGO.relay_roundtrip sender target fname file⟩

theorem claim1_roundtrip_witness :
    (Supr.run (Supr.acceptFile "h" "f" 3) "h"
        (Supr.frames 0 (chunksOf Supr.CHUNK_SIZE [1, 2, 3]) ++ [Supr.Msg.done])).2
      = [Supr.Ev.complete "h" "f" [1, 2, 3]] ∧
    (SuperGO.finalizeFile "s"
      (SuperGO.runReceive "s"
        (SuperGO.chunkDatas (SuperGO.sendFileChunksMsgs "t" [1, 2, 3]))
        (SuperGO.acceptFile "s" "g" 3
          (SuperGO.incomingFile ⟨"s", "g", 3⟩ SuperGO.goInit).1).1)).2
      = [SuperGO.GoEv.fileReceived "s" "g" [1, 2, 3]] :=
  claim1_roundtrip [1, 2, 3] "h" "f" "s" "t" "g"
    (Supr.frames 0 (chunksOf Supr.CHUNK_SIZE [1, 2, 3]))
    (by decide) (fun m => Iff.rfl)

/-- C2: on the sequenced channel, a data frame whose 4-byte big-endian index
is already stored is a no-op for the receiver while the transfer is in
progress — `chunks`, `receivedCount` and `bytesRx` are unchanged and no event
fires (`if (!t.chunks[index])` counts only the first delivery) — and after
the download has completed and been cleared, any further frame is ignored. -/
theorem claim2_duplicate_idempotent (s : Supr.Client) (id : String)
    (t : Supr.Download) (index : Nat) (payload : List Nat)
    (hs : s.activeDownload = some t) (hid : t.id = id) (hidx : index < 2 ^ 32)
    (hstored : (t.chunks.getD index none).isSome)
    (hprog : t.receivedCount ≠ t.totalChunks) :
    Supr.pull s id (Supr.Msg.data (toBE4 index ++ payload)) = (s, []) ∧
    (∀ (s' : Supr.Client) (m : Supr.Msg), s'.activeDownload = none →
      Supr.pull s' id m = (s', [])) := by
  constructor
  · have hidx2 : fromBE4 (toBE4 index ++ payload) = index := fromBE4_toBE4 _ _ hidx
    have hisnone : (t.chunks.getD index none).isNone = false := by
      cases hgot : t.chunks.getD index none with
      | none => rw [hgot] at hstored; simp at hstored
      | some v => rfl
    simp only [Supr.pull, hs]
    rw [if_pos hid]
    simp only [hidx2, hisnone, Bool.false_eq_true, if_false]
    rw [if_neg hprog, ← hs]
  · intro s' m h
    exact Supr.pull_of_none s' id m h

theorem claim2_duplicate_idempotent_witness :
    Supr.pull
      { activeDownload := some
          { id := "h", chunks := [some [7, 7], none], receivedCount := 1,
            totalChunks := 2, bytesRx := 2 }
        incomingFileName := some "f" } "h"
      (Supr.Msg.data (toBE4 0 ++ [7, 7]))
      = ({ activeDownload := some
            { id := "h", chunks := [some [7, 7], none], receivedCount := 1,
              totalChunks := 2, bytesRx := 2 }
           incomingFileName := some "f" }, []) :=
  (claim2_duplicate_idempotent _ "h" _ 0 [7, 7] rfl rfl (by decide) (by decide)
    (by decide)).1

/-- C3: the sender never emits a data chunk at an observation where the
channel's buffered amount exceeds the 1 MiB high-water mark — every
`sentChunk` of the `Supr.push` pump carries an at-or-under-the-mark reading;
an over-the-mark reading produces no frame, the pump suspending until the
next observation; given enough under-the-mark observations the pump
terminates with `'DONE'`; and the `part_004` wait loop
`while (bufferedAmount > maxBufferedAmount && conn.open)` releases a send
only at a reading at or under its 32 MiB mark while the connection is
open. -/
theorem claim3_backpressure (total : Nat) (readings : List Nat)
    (offset idx i b : Nat) :
    (Supr.PumpEv.sentChunk i b ∈ Supr.pumpExec total readings offset idx →
      b ≤ Supr.BUFFER_HI_WATER) ∧
    (∀ (r : Nat) (rs : List Nat) (o j : Nat), o < total →
      Supr.BUFFER_HI_WATER < r →
      Supr.pumpExec total (r :: rs) o j = Supr.pumpExec total rs o j) ∧
    (ceilDiv (total - offset) Supr.CHUNK_SIZE + 1 ≤
        readings.countP (fun x => x ≤ Supr.BUFFER_HI_WATER) →
      Supr.PumpEv.sentDone ∈ Supr.pumpExec total readings offset idx) ∧
    (∀ (ws : List (Nat × Bool)) (b' : Nat),
      P4.waitDecide ws = some (b', true) → b' ≤ P4.maxBufferedAmount) :=
  ⟨Supr.pumpExec_sent_le total readings offset idx i b,
   fun r rs o j ho hr => Supr.pumpExec_suspends total r rs o j ho hr,
   Supr.pumpExec_terminates total readings offset idx,
   fun ws b' h => P4.waitDecide_le ws b' h⟩

theorem claim3_backpressure_witness :
    (0 : Nat) ≤ Supr.BUFFER_HI_WATER ∧
    Supr.pumpExec 1 (2000000 :: [5]) 0 0 = Supr.pumpExec 1 [5] 0 0 ∧
    Supr.PumpEv.sentDone ∈ Supr.pumpExec 1 [0, 0] 0 0 ∧
    (3 : Nat) ≤ P4.maxBufferedAmount :=
  ⟨(claim3_backpressure 1 [0, 0] 0 0 0 0).1 (by decide),
   (claim3_backpressure 1 [] 0 0 0 0).2.1 2000000 [5] 0 0 (by decide) (by decide),
   (claim3_backpressure 1 [0, 0] 0 0 0 0).2.2.1 (by decide),
   (claim3_backpressure 1 [] 0 0 0 0).2.2.2 [(3, true)] 3 (by decide)⟩

/-- C4 counterexample: the claimed per-pair exclusivity fails.  With only an
outgoing offer pending to peer X (state `pendingTransfer`/`pendingTargetId`
set, nothing else), an incoming offer from the same peer X is not answered
with a busy rejection: the handler emits no `reject-file`, queues the offer
into `incomingRequest`, and the pair then holds an outgoing and an incoming
`OfferPending` simultaneously — the `incoming-file` handler checks only
`activeTransfer` and `incomingRequest`, never `pendingTransfer`. -/
theorem claim4_counterexample :
    (SuperGO.incomingFile ⟨"X", "b.bin", 5⟩
      { devices := ["X"], activeTransfer := none,
        pendingTransfer := some ⟨"a.bin", "bin", [1]⟩,
        pendingTargetId := some "X",
        incomingRequest := none, completedTransfers := [] }).2.1 = [] ∧
    (SuperGO.incomingFile ⟨"X", "b.bin", 5⟩
      { devices := ["X"], activeTransfer := none,
        pendingTransfer := some ⟨"a.bin", "bin", [1]⟩,
        pendingTargetId := some "X",
        incomingRequest := none, completedTransfers := [] }).1.incomingRequest
      = some ⟨"X", "b.bin", 5⟩ ∧
    (SuperGO.incomingFile ⟨"X", "b.bin", 5⟩
      { devices := ["X"], activeTransfer := none,
        pendingTransfer := some ⟨"a.bin", "bin", [1]⟩,
        pendingTargetId := some "X",
        incomingRequest := none, completedTransfers := [] }).1.pendingTargetId
      = some "X" := by
  refine ⟨rfl, rfl, rfl⟩

/-- C4 (amended): an incoming offer arriving while a transfer is active or
another incoming offer is pending is answered with an explicit busy rejection
on the socket (not queued), and the rejection leaves the whole engine state —
active transfer, pending outgoing offer and pending incoming request —
unchanged.  (An incoming offer while only an outgoing offer is pending is
accepted, so an outgoing and an incoming OfferPending can coexist for one
peer pair; the blanket per-pair exclusivity stated by the claim does not
hold.) -/
theorem claim4_busy_rejection (s : SuperGO.GoState) (d : SuperGO.Offer)
    (h : s.activeTransfer.isSome = true ∨ s.incomingRequest.isSome = true) :
    SuperGO.incomingFile d s
      = (s, [SuperGO.GoMsg.rejectFile d.senderId "busy"], []) := by
  rcases h with h | h
  · simp [SuperGO.incomingFile, h]
  · by_cases h2 : s.activeTransfer.isSome = true
    · simp [SuperGO.incomingFile, h2]
    · simp [SuperGO.incomingFile, h2, h]

theorem claim4_busy_rejection_witness :
    SuperGO.incomingFile ⟨"Y", "c.bin", 9⟩
      { devices := [], activeTransfer := some (SuperGO.Active.sending "X" false),
        pendingTransfer := none, pendingTargetId := none,
        incomingRequest := none, completedTransfers := [] }
      = ({ devices := [], activeTransfer := some (SuperGO.Active.sending "X" false),
           pendingTransfer := none, pendingTargetId := none,
           incomingRequest := none, completedTransfers := [] },
         [SuperGO.GoMsg.rejectFile "Y" "busy"], []) :=
  claim4_busy_rejection _ _ (Or.inl rfl)

/-- C5 counterexample: a pending incoming offer does not block `sendFile`.
With `incomingRequest` set (local state not Idle) and both `activeTransfer`
and `pendingTransfer` empty, `sendFile` with a non-empty file proceeds: it
emits `send-file-info` on the socket — the offer reaches the network — and
records the outgoing pending offer; `sendFile` checks only `activeTransfer`
and `pendingTransfer`, not `incomingRequest` (unlike the `isBusy` getter). -/
theorem claim5_counterexample :
    (SuperGO.sendFile "T" (some ⟨"a.bin", "bin", [1]⟩)
      { devices := [], activeTransfer := none, pendingTransfer := none,
        pendingTargetId := none, incomingRequest := some ⟨"X", "in.bin", 7⟩,
        completedTransfers := [] }).2.1
      = [SuperGO.GoMsg.sendFileInfo "T" "a.bin" 1] ∧
    (SuperGO.sendFile "T" (some ⟨"a.bin", "bin", [1]⟩)
      { devices := [], activeTransfer := none, pendingTransfer := none,
        pendingTargetId := none, incomingRequest := some ⟨"X", "in.bin", 7⟩,
        completedTransfers := [] }).1.pendingTransfer
      = some ⟨"a.bin", "bin", [1]⟩ := by
  refine ⟨rfl, rfl⟩

/-- C5 (amended): `sendFile` with a missing or empty file, or while an active
transfer or a pending outgoing offer exists, is rejected synchronously with a
local `transferError` and never reaches the network — no socket message is
emitted and the state is unchanged.  (A pending incoming offer alone does not
block `sendFile`: only `activeTransfer` and `pendingTransfer` are checked.) -/
theorem claim5_local_rejection (s : SuperGO.GoState) (targetId : String)
    (f : SuperGO.GoFile) :
    (SuperGO.sendFile targetId none s
      = (s, [], [SuperGO.GoEv.transferError targetId "Empty file"])) ∧
    (f.bytes.length = 0 →
      SuperGO.sendFile targetId (some f) s
        = (s, [], [SuperGO.GoEv.transferError targetId "Empty file"])) ∧
    (f.bytes.length ≠ 0 →
      (s.activeTransfer.isSome = true ∨ s.pendingTransfer.isSome = true) →
      SuperGO.sendFile targetId (some f) s
        = (s, [], [SuperGO.GoEv.transferError targetId "Already busy"])) := by
  refine ⟨rfl, ?_, ?_⟩
  · intro h
    simp [SuperGO.sendFile, h]
  · intro hne hbusy
    have hb : (s.activeTransfer.isSome || s.pendingTransfer.isSome) = true := by
      rcases hbusy with h | h <;> simp [h]
    simp [SuperGO.sendFile, hne, hb]

theorem claim5_local_rejection_witness :
    SuperGO.sendFile "T" (some ⟨"a.bin", "bin", [1]⟩)
      { devices := [], activeTransfer := none,
        pendingTransfer := some ⟨"b.bin", "bin", [2]⟩,
        pendingTargetId := some "U", incomingRequest := none,
        completedTransfers := [] }
      = ({ devices := [], activeTransfer := none,
           pendingTransfer := some ⟨"b.bin", "bin", [2]⟩,
           pendingTargetId := some "U", incomingRequest := none,
           completedTransfers := [] }, [],
         [SuperGO.GoEv.transferError "T" "Already busy"]) :=
  (claim5_local_rejection _ "T" ⟨"a.bin", "bin", [1]⟩).2.2 (by decide) (Or.inr rfl)

/-- C6: finalization is idempotent on both receivers.  On the relay engine a
first `file-complete` for a live matching session emits exactly one
`fileReceived` and clears the session, and a second one afterwards is a
silent no-op; on the sequenced engine a first `'DONE'` emits the completion
and clears `activeDownload`, and a second `'DONE'` is a no-op rather than an
error. -/
theorem claim6_finalize_idempotent (s : SuperGO.GoState) (sender name : String)
    (chunks : List (List Nat)) (received total lastCons : Nat)
    (hs : s.activeTransfer =
      some (SuperGO.Active.receiving sender chunks received total name lastCons))
    (hkey : (sender ++ "-" ++ name) ∉ s.completedTransfers)
    (s2 : Supr.Client) (t : Supr.Download) (id2 : String)
    (hs2 : s2.activeDownload = some t) :
    ((SuperGO.finalizeFile sender s).2
        = [SuperGO.GoEv.fileReceived sender name chunks.flatten] ∧
      (SuperGO.finalizeFile sender s).1.activeTransfer = none ∧
      SuperGO.finalizeFile sender (SuperGO.finalizeFile sender s).1
        = ((SuperGO.finalizeFile sender s).1, [])) ∧
    ((Supr.pull s2 id2 Supr.Msg.done).2
        = [Supr.Ev.complete id2 (s2.incomingFileName.getD "download")
            (Supr.assemble t.chunks)] ∧
      (Supr.pull s2 id2 Supr.Msg.done).1.activeDownload = none ∧
      Supr.pull (Supr.pull s2 id2 Supr.Msg.done).1 id2 Supr.Msg.done
        = ((Supr.pull s2 id2 Supr.Msg.done).1, [])) := by
  have hfin : SuperGO.finalizeFile sender s =
      ({ s with activeTransfer := none
                completedTransfers := (sender ++ "-" ++ name) :: s.completedTransfers },
       [SuperGO.GoEv.fileReceived sender name chunks.flatten]) := by
    simp only [SuperGO.finalizeFile, hs, if_true]
    rw [if_neg hkey]
  have hsave : Supr.pull s2 id2 Supr.Msg.done =
      ({ s2 with activeDownload := none },
       [Supr.Ev.complete id2 (s2.incomingFileName.getD "download")
         (Supr.assemble t.chunks)]) :=
    Supr.save_some s2 id2 t hs2
  refine ⟨⟨?_, ?_, ?_⟩, ?_, ?_, ?_⟩
  · rw [hfin]
  · rw [hfin]
  · rw [hfin]
    rfl
  · rw [hsave]
  · rw [hsave]
  · rw [hsave]
    exact Supr.pull_of_none _ id2 Supr.Msg.done rfl

theorem claim6_finalize_idempotent_witness :
    ((SuperGO.finalizeFile "S"
        { devices := [], activeTransfer :=
            some (SuperGO.Active.receiving "S" [[4, 5]] 2 2 "f" 0),
          pendingTransfer := none, pendingTargetId := none,
          incomingRequest := none, completedTransfers := [] }).2
      = [SuperGO.GoEv.fileReceived "S" "f" [4, 5]]) ∧
    ((Supr.pull
        { activeDownload := some
            { id := "h", chunks := [some [4, 5]], receivedCount := 1,
              totalChunks := 1, bytesRx := 2 }
          incomingFileName := some "f" } "h" Supr.Msg.done).2
      = [Supr.Ev.complete "h" "f" [4, 5]]) := by
  have h := claim6_finalize_idempotent
    { devices := [], activeTransfer :=
        some (SuperGO.Active.receiving "S" [[4, 5]] 2 2 "f" 0),
      pendingTransfer := none, pendingTargetId := none,
      incomingRequest := none, completedTransfers := [] }
    "S" "f" [[4, 5]] 2 2 0 rfl (by decide)
    { activeDownload := some
        { id := "h", chunks := [some [4, 5]], receivedCount := 1,
          totalChunks := 1, bytesRx := 2 }
      incomingFileName := some "f" }
    { id := "h", chunks := [some [4, 5]], receivedCount := 1,
      totalChunks := 1, bytesRx := 2 } "h" rfl
  exact ⟨h.1.1, h.2.1⟩

/-- C7 counterexample: the `part_004` receiver does not finalize an empty
file to an empty payload.  The sender's empty-file branch emits exactly the
`file-end` control frame and no data frame, but on the receiving side no
transfer entry was ever created (transfers are created by the first chunk),
so `_finalizeFile` — which requires `transfer.chunks.length > 0` — emits no
completion event at all: the whole cycle produces zero events and no payload,
and no start control frame exists anywhere in the exchange. -/
theorem claim7_counterexample :
    P4.sendFrames [] = [P4.P4Msg.fileEnd] ∧
    (P4.runP4 { transfer := none, fileMeta := some ("f", 0) }
      (P4.sendFrames [])).2 = [] := by
  refine ⟨rfl, rfl⟩

/-- C7 (amended): sending an empty file still produces a valid control
sequence with zero data frames — the `part_004` sender emits exactly the END
(`file-end`) marker and the `supr.js` sender exactly the `'DONE'` marker,
with no data frames (no separate START frame exists on either path; transfer
start is signalled by offer/file-list metadata).  On the sequenced `supr.js`
path the receiver finalizes to an empty payload with exactly one completion
event, whereas the `part_004` receiver skips completion for a zero-chunk
transfer and emits nothing. -/
theorem claim7_empty_file :
    P4.sendFrames [] = [P4.P4Msg.fileEnd] ∧
    Supr.pushMsgs [] = [Supr.Msg.done] ∧
    (Supr.run (Supr.acceptFile "h" "f" 0) "h" (Supr.pushMsgs [])).2
      = [Supr.Ev.complete "h" "f" []] ∧
    (P4.runP4 { transfer := none, fileMeta := some ("g", 0) }
      (P4.sendFrames [])).2 = [] := by
  refine ⟨rfl, rfl, by decide, rfl⟩

/-- C8 counterexample: the cancellation event for a lost peer does not always
identify the peer.  With an outgoing offer pending to peer X and X removed
from the device list, the `devices` handler emits exactly one cancellation
event — but it is `transferRejected` with only a reason string, carrying no
peer identity (and the pending-incoming analogue `incomingFileCancelled`
carries no payload at all). -/
theorem claim8_counterexample :
    ((SuperGO.devicesHandler []
      { devices := ["X"], activeTransfer := none,
        pendingTransfer := some ⟨"a.bin", "bin", [1]⟩,
        pendingTargetId := some "X", incomingRequest := none,
        completedTransfers := [] }).2.filter SuperGO.isCancelEv
      = [SuperGO.GoEv.transferRejected "Device disconnected"]) ∧
    SuperGO.evMentionsPeer
      (SuperGO.GoEv.transferRejected "Device disconnected") "X" = false := by
  refine ⟨rfl, rfl⟩

/-- C8 (amended): when the membership update drops a peer involved in a
transfer, the associated session is cancelled or cleared and exactly one
cancellation event is emitted for that transfer.  The event names the peer
for both Active cases (receiver side: `transferError` with the sender id from
the handler; sender side: the loop's abort check emits `transferError` with
the target id after the handler marks the session aborted), but the
pending-outgoing and pending-incoming cancellations (`transferRejected`,
`incomingFileCancelled`) do not carry the peer id. -/
theorem claim8_peer_loss (list : List String) :
    (∀ (s : SuperGO.GoState) (sid : String) (chunks : List (List Nat))
        (received total lastCons : Nat) (name : String),
      s.activeTransfer = some
        (SuperGO.Active.receiving sid chunks received total name lastCons) →
      sid ∉ list → s.pendingTargetId = none → s.incomingRequest = none →
      (SuperGO.devicesHandler list s).1.activeTransfer = none ∧
      (SuperGO.devicesHandler list s).2.filter SuperGO.isCancelEv
        = [SuperGO.GoEv.transferError sid "Sender disconnected"]) ∧
    (∀ (s : SuperGO.GoState) (tid : String),
      s.activeTransfer = some (SuperGO.Active.sending tid false) →
      tid ∉ list → s.pendingTargetId = none → s.incomingRequest = none →
      (SuperGO.devicesHandler list s).1.activeTransfer
        = some (SuperGO.Active.sending tid true) ∧
      (SuperGO.devicesHandler list s).2.filter SuperGO.isCancelEv = [] ∧
      SuperGO.sendChunksAbortCheck tid (SuperGO.devicesHandler list s).1
        = some (SuperGO.setActive (SuperGO.devicesHandler list s).1 none,
            [SuperGO.GoEv.transferError tid "Device disconnected"])) ∧
    (∀ (s : SuperGO.GoState) (tid : String),
      s.activeTransfer = none → s.pendingTargetId = some tid → tid ∉ list →
      s.incomingRequest = none →
      (SuperGO.devicesHandler list s).1.pendingTargetId = none ∧
      (SuperGO.devicesHandler list s).1.pendingTransfer = none ∧
      (SuperGO.devicesHandler list s).2.filter SuperGO.isCancelEv
        = [SuperGO.GoEv.transferRejected "Device disconnected"]) ∧
    (∀ (s : SuperGO.GoState) (r : SuperGO.Offer),
      s.activeTransfer = none → s.pendingTargetId = none →
      s.incomingRequest = some r → r.senderId ∉ list →
      (SuperGO.devicesHandler list s).1.incomingRequest = none ∧
      (SuperGO.devicesHandler list s).2.filter SuperGO.isCancelEv
        = [SuperGO.GoEv.incomingFileCancelled]) := by
  refine ⟨?_, ?_, ?_, ?_⟩
  · intro s sid chunks received total lastCons name hs hlost hp hi
    constructor
    · simp [SuperGO.devicesHandler, hs, hlost, hp, hi]
    · simp [SuperGO.devicesHandler, hs, hlost, hp, hi, SuperGO.isCancelEv]
  · intro s tid hs hlost hp hi
    refine ⟨?_, ?_, ?_⟩
    · simp [SuperGO.devicesHandler, hs, hlost, hp, hi]
    · simp [SuperGO.devicesHandler, hs, hlost, hp, hi, SuperGO.isCancelEv]
    · have h1 : (SuperGO.devicesHandler list s).1.activeTransfer
          = some (SuperGO.Active.sending tid true) := by
        simp [SuperGO.devicesHandler, hs, hlost, hp, hi]
      simp only [SuperGO.sendChunksAbortCheck, h1, if_true, SuperGO.setActive]
  · intro s tid hs hp hlost hi
    refine ⟨?_, ?_, ?_⟩
    · simp [SuperGO.devicesHandler, hs, hlost, hp, hi]
    · simp [SuperGO.devicesHandler, hs, hlost, hp, hi]
    · simp [SuperGO.devicesHandler, hs, hlost, hp, hi, SuperGO.isCancelEv]
  · intro s r hs hp hi hlost
    constructor
    · simp [SuperGO.devicesHandler, hs, hlost, hp, hi]
    · simp [SuperGO.devicesHandler, hs, hlost, hp, hi, SuperGO.isCancelEv]

theorem claim8_peer_loss_witness :
    ((SuperGO.devicesHandler []
        { devices := ["S"], activeTransfer :=
            some (SuperGO.Active.receiving "S" [[1]] 1 1 "f" 0),
          pendingTransfer := none, pendingTargetId := none,
          incomingRequest := none, completedTransfers := [] }).1.activeTransfer
        = none ∧
      (SuperGO.devicesHandler []
        { devices := ["S"], activeTransfer :=
            some (SuperGO.Active.receiving "S" [[1]] 1 1 "f" 0),
          pendingTransfer := none, pendingTargetId := none,
          incomingRequest := none, completedTransfers := [] }).2.filter
          SuperGO.isCancelEv
        = [SuperGO.GoEv.transferError "S" "Sender disconnected"]) ∧
    ((SuperGO.devicesHandler []
        { devices := ["T"], activeTransfer :=
            some (SuperGO.Active.sending "T" false),
          pendingTransfer := none, pendingTargetId := none,
          incomingRequest := none, completedTransfers := [] }).1.activeTransfer
        = some (SuperGO.Active.sending "T" true) ∧
      (SuperGO.devicesHandler []
        { devices := ["T"], activeTransfer :=
            some (SuperGO.Active.sending "T" false),
          pendingTransfer := none, pendingTargetId := none,
          incomingRequest := none, completedTransfers := [] }).2.filter
          SuperGO.isCancelEv = [] ∧
      SuperGO.sendChunksAbortCheck "T"
        (SuperGO.devicesHandler []
          { devices := ["T"], activeTransfer :=
              some (SuperGO.Active.sending "T" false),
            pendingTransfer := none, pendingTargetId := none,
            incomingRequest := none, completedTransfers := [] }).1
        = some (SuperGO.setActive
            (SuperGO.devicesHandler []
              { devices := ["T"], activeTransfer :=
                  some (SuperGO.Active.sending "T" false),
                pendingTransfer := none, pendingTargetId := none,
                incomingRequest := none, completedTransfers := [] }).1 none,
            [SuperGO.GoEv.transferError "T" "Device disconnected"])) ∧
    ((SuperGO.devicesHandler []
        { devices := ["P"], activeTransfer := none,
          pendingTransfer := some ⟨"a.bin", "bin", [1]⟩,
          pendingTargetId := some "P",
          incomingRequest := none, completedTransfers := [] }).1.pendingTargetId
        = none ∧
      (SuperGO.devicesHandler []
        { devices := ["P"], activeTransfer := none,
          pendingTransfer := some ⟨"a.bin", "bin", [1]⟩,
          pendingTargetId := some "P",
          incomingRequest := none, completedTransfers := [] }).1.pendingTransfer
        = none ∧
      (SuperGO.devicesHandler []
        { devices := ["P"], activeTransfer := none,
          pendingTransfer := some ⟨"a.bin", "bin", [1]⟩,
          pendingTargetId := some "P",
          incomingRequest := none, completedTransfers := [] }).2.filter
          SuperGO.isCancelEv
        = [SuperGO.GoEv.transferRejected "Device disconnected"]) ∧
    ((SuperGO.devicesHandler []
        { devices := ["Q"], activeTransfer := none,
          pendingTransfer := none, pendingTargetId := none,
          incomingRequest := some ⟨"Q", "f", 1⟩,
          completedTransfers := [] }).1.incomingRequest = none ∧
      (SuperGO.devicesHandler []
        { devices := ["Q"], activeTransfer := none,
          pendingTransfer := none, pendingTargetId := none,
          incomingRequest := some ⟨"Q", "f", 1⟩,
          completedTransfers := [] }).2.filter SuperGO.isCancelEv
        = [SuperGO.GoEv.incomingFileCancelled]) :=
  ⟨(claim8_peer_loss []).1 _ "S" [[1]] 1 1 0 "f" rfl (by decide) rfl rfl,
   (claim8_peer_loss []).2.1 _ "T" rfl (by decide) rfl rfl,
   (claim8_peer_loss []).2.2.1 _ "P" rfl rfl (by decide) rfl,
   (claim8_peer_loss []).2.2.2 _ ⟨"Q", "f", 1⟩ rfl rfl rfl (by decide)⟩

/-- C9: the Receiver Session invariant holds after every operation.  On the
relay receiver, after any prefix of the sender's chunk stream the session
satisfies `received` = sum of the lengths of the fragments currently held =
length of the buffered content, the content is the corresponding prefix of
the file (so the 50 MiB consolidation, which replaces the fragment list by
one flattened block, preserves both the byte count and the concatenated
content), and `received` never exceeds `expectedTotal`; every chunk receipt
is monotone in `received`; and on the sequenced receiver `bytesRx` always
equals the summed length of the stored chunks and `receivedCount` the number
of stored chunks, for an arbitrary delivered message sequence. -/
theorem claim9_receiver_invariant :
    (∀ (bytes : List Nat) (sender fname : String) (k : Nat),
      ∃ chunks' lastCons',
        SuperGO.runReceive sender ((chunksOf SuperGO.CHUNK_SIZE bytes).take k)
            (SuperGO.setActive SuperGO.goInit
              (some (SuperGO.Active.receiving sender [] 0 bytes.length fname 0)))
          = SuperGO.setActive SuperGO.goInit
              (some (SuperGO.Active.receiving sender chunks'
                ((((chunksOf SuperGO.CHUNK_SIZE bytes).take k).map List.length).sum)
                bytes.length fname lastCons')) ∧
        (chunks'.map List.length).sum
          = (((chunksOf SuperGO.CHUNK_SIZE bytes).take k).map List.length).sum ∧
        chunks'.flatten = ((chunksOf SuperGO.CHUNK_SIZE bytes).take k).flatten ∧
        (((chunksOf SuperGO.CHUNK_SIZE bytes).take k).map List.length).sum
          ≤ bytes.length) ∧
    (∀ (s : SuperGO.GoState) (sid : String) (b : List Nat),
      SuperGO.receivedOf s ≤ SuperGO.receivedOf (SuperGO.receiveChunk sid b s)) ∧
    (∀ (ms : List Supr.Msg) (hostId fname2 : String) (size : Nat)
        (t : Supr.Download),
      (Supr.run (Supr.acceptFile hostId fname2 size) hostId ms).1.activeDownload
        = some t →
      t.bytesRx = Supr.storedBytes t.chunks ∧
      t.receivedCount = Supr.countStored t.chunks) := by
  refine ⟨?_, ?_, ?_⟩
  · intro bytes sender fname k
    have hCne : SuperGO.CHUNK_SIZE ≠ 0 := by decide
    obtain ⟨chunks', lastCons', hrun, hflat⟩ :=
      SuperGO.runReceive_inv sender fname bytes.length
        ((chunksOf SuperGO.CHUNK_SIZE bytes).take k)
        (SuperGO.setActive SuperGO.goInit
          (some (SuperGO.Active.receiving sender [] 0 bytes.length fname 0)))
        [] 0 0 rfl
    have hflat' : chunks'.flatten
        = ((chunksOf SuperGO.CHUNK_SIZE bytes).take k).flatten := by
      rw [hflat]
      simp
    refine ⟨chunks', lastCons', ?_, ?_, hflat', ?_⟩
    · rw [hrun, SuperGO.setActive_setActive]
      congr 3
      rw [Nat.zero_add]
    · rw [← List.length_flatten, ← List.length_flatten, hflat']
    · rw [← List.length_flatten]
      have h1 := flatten_take_length_le (chunksOf SuperGO.CHUNK_SIZE bytes) k
      rw [flatten_chunksOf SuperGO.CHUNK_SIZE hCne bytes] at h1
      exact h1
  · intro s sid b
    exact SuperGO.receivedOf_mono s sid b
  · intro ms hostId fname2 size t ht
    have hacct0 : Supr.Acct
        { id := hostId
          chunks := List.replicate (ceilDiv size Supr.CHUNK_SIZE) none
          receivedCount := 0
          totalChunks := ceilDiv size Supr.CHUNK_SIZE
          bytesRx := 0 } := by
      constructor
      · show (0 : Nat) = Supr.storedBytes (List.replicate _ none)
        rw [Supr.storedBytes_replicate]
      · show (0 : Nat) = Supr.countStored (List.replicate _ none)
        rw [Supr.countStored_replicate]
    exact Supr.run_acct hostId ms (Supr.acceptFile hostId fname2 size) _ rfl hacct0 t ht

theorem claim9_receiver_invariant_witness :
    (∃ chunks' lastCons',
        SuperGO.runReceive "S" ((chunksOf SuperGO.CHUNK_SIZE [1, 2]).take 1)
            (SuperGO.setActive SuperGO.goInit
              (some (SuperGO.Active.receiving "S" [] 0 2 "f" 0)))
          = SuperGO.setActive SuperGO.goInit
              (some (SuperGO.Active.receiving "S" chunks'
                ((((chunksOf SuperGO.CHUNK_SIZE [1, 2]).take 1).map List.length).sum)
                2 "f" lastCons')) ∧
        (chunks'.map List.length).sum
          = (((chunksOf SuperGO.CHUNK_SIZE [1, 2]).take 1).map List.length).sum ∧
        chunks'.flatten = ((chunksOf SuperGO.CHUNK_SIZE [1, 2]).take 1).flatten ∧
        (((chunksOf SuperGO.CHUNK_SIZE [1, 2]).take 1).map List.length).sum ≤ 2) ∧
    SuperGO.receivedOf
        (SuperGO.setActive SuperGO.goInit
          (some (SuperGO.Active.receiving "S" [] 0 2 "f" 0)))
      ≤ SuperGO.receivedOf (SuperGO.receiveChunk "S" [9]
        (SuperGO.setActive SuperGO.goInit
          (some (SuperGO.Active.receiving "S" [] 0 2 "f" 0)))) ∧
    ((Supr.acceptFile "h" "f" 2).activeDownload.getD
        { id := "", chunks := [], receivedCount := 0, totalChunks := 0,
          bytesRx := 0 }).bytesRx
      = Supr.storedBytes
        ((Supr.acceptFile "h" "f" 2).activeDownload.getD
          { id := "", chunks := [], receivedCount := 0, totalChunks := 0,
            bytesRx := 0 }).chunks := by
  have h2 : (List.length ([1, 2] : List Nat)) = 2 := rfl
  refine ⟨?_, ?_, ?_⟩
  · have h := claim9_receiver_invariant.1 [1, 2] "S" "f" 1
    rw [h2] at h
    exact h
  · exact claim9_receiver_invariant.2.1 _ "S" [9]
  · exact (claim9_receiver_invariant.2.2 [] "h" "f" 2 _ rfl).1

/-- C10: on the sequenced receiver the `'DONE'` control message triggers
finalization unconditionally — with any active download, even one with
`receivedCount < totalChunks` (sequence indices never received), `Supr.pull`
emits exactly one completion event assembled from the chunks actually stored
and clears the session; the assembled payload is exactly `storedBytes` long,
so with missing chunks a lossy channel yields a completion whose payload is
shorter than the offered file size. -/
theorem claim10_done_unconditional (s : Supr.Client) (id : String)
    (t : Supr.Download) (hs : s.activeDownload = some t)
    (hlossy : t.receivedCount < t.totalChunks) :
    Supr.pull s id Supr.Msg.done
      = ({ s with activeDownload := none },
         [Supr.Ev.complete id (s.incomingFileName.getD "download")
           (Supr.assemble t.chunks)]) ∧
    (Supr.assemble t.chunks).length = Supr.storedBytes t.chunks :=
  ⟨Supr.save_some s id t hs, Supr.length_assemble t.chunks⟩

theorem claim10_done_unconditional_witness :
    Supr.pull
      { activeDownload := some
          { id := "h", chunks := [some [9, 9], none], receivedCount := 1,
            totalChunks := 2, bytesRx := 2 }
        incomingFileName := some "f" } "h" Supr.Msg.done
      = ({ activeDownload := none, incomingFileName := some "f" },
         [Supr.Ev.complete "h" "f" [9, 9]]) ∧
    (Supr.assemble [some [9, 9], none]).length
      = Supr.storedBytes [some [9, 9], none] := by
  have h := claim10_done_unconditional
    { activeDownload := some
        { id := "h", chunks := [some [9, 9], none], receivedCount := 1,
          totalChunks := 2, bytesRx := 2 }
      incomingFileName := some "f" } "h"
    { id := "h", chunks := [some [9, 9], none], receivedCount := 1,
      totalChunks := 2, bytesRx := 2 } rfl (by decide)
  exact ⟨h.1, h.2⟩
